import Mathlib

/-!
# Product holders of FWCore/Framework (ProductHolders.cc)

A shallow embedding of `FWCore/Framework/src/ProductHolders.cc`.

* The mutable members of a data-managing holder (`productData_`, `theStatus_`, both
  `mutable` in C++ and written through `const` methods) live in a `World`, addressed by the
  holder's index in the owning container.  A holder object itself is its immutable identity.
* The collaborator (`Principal`) supplies `readFromSource` and `unscheduledFill` as arbitrary
  transformers of the `World`; every such call made by a holder is appended to `World.calls`.
* A C++ exception, a failed `assert` and a read through a null pointer or past the end of a
  vector are the `Except.error` results of the embedded functions.
-/

namespace edm

/-! ## Data model -/

/-- Modelled from the spec: `WrapperBase` (DataFormats/Common, absent) is the boxed payload.
The holders read only its presence flag, through `isPresent()`; `content` stands for the
value it boxes. -/
structure WrapperBase where
  isPresent : Bool
  content : Nat
  deriving DecidableEq, Repr

/-- Modelled from the spec: `ProductData` (DataFormats/Common, absent) is the product record,
an optional payload (`wrapper()`, null when nothing was put) and a provenance handle. -/
structure ProductData where
  wrapper : Option WrapperBase
  provenance : Option Nat
  deriving DecidableEq, Repr

/-- Modelled from the spec: `ProductData::resetProductData()` (absent) clears the record. -/
def ProductData.resetProductData (_pd : ProductData) : ProductData :=
  { wrapper := none, provenance := none }

/-- Modelled from the spec: the enum `ProductStatus` is declared in ProductHolders.h (absent).
The spec names the states Uninitialized, Present and Deleted; the enumerators carry the names
ProductHolders.cc uses for them. -/
inductive ProductStatus where
  | Uninitialized
  | Present
  | ProductDeleted
  deriving DecidableEq, Repr

/-- Modelled from the spec: the enum `ResolveStatus` (ProductHolderBase.h, absent) with the
three enumerators ProductHolders.cc assigns. -/
inductive ResolveStatus where
  | ProductFound
  | ProductNotFound
  | Ambiguous
  deriving DecidableEq, Repr

/-- The ways an operation of this file ends without returning: the three exceptions thrown
(`ProductDeletedException`, `errors::InsertFailure`, `errors::LogicError`), a failed `assert`,
a dereferenced null pointer, a vector read out of range, and the exhausted recursion budget of
the embedding of virtual dispatch. -/
inductive Fault where
  | ProductDeleted
  | InsertFailure
  | LogicError
  | AssertionFailed
  | NullDereference
  | OutOfRange
  | OutOfFuel
  deriving DecidableEq, Repr

/-- Index of a holder in its owning container. -/
abbrev ProductHolderIndex := Nat

/-- Modelled from the spec: the invalid sentinel of `ProductHolderIndex`
(FWCore/Utilities, absent), the largest `unsigned int`. -/
def ProductHolderIndexInvalid : ProductHolderIndex := 4294967295

/-- Modelled from the spec: the part of `BranchDescription` (absent) the holders read. -/
structure BranchDescription where
  branchName : String
  moduleLabel : String
  produced : Bool
  deriving DecidableEq, Repr

/-- The `mutable` data members of `DataManagingProductHolder`. -/
structure HolderData where
  productData_ : ProductData
  theStatus_ : ProductStatus
  deriving DecidableEq, Repr

/-- A call a holder makes on its collaborator. A null `SharedResourcesAcquirer*` or
`ModuleCallingContext const*` is `none`. -/
inductive Call where
  | readFromSource (holder : ProductHolderIndex) (mcc : Option Nat)
  | unscheduledFill (moduleLabel : String) (sra : Option Nat) (mcc : Option Nat)
  deriving DecidableEq, Repr

/-- Everything that changes while holders are used: the mutable members of every holder of the
container, the calls made on the collaborator so far, and the collaborator's own state. -/
structure World where
  holders : ProductHolderIndex → HolderData
  calls : List Call
  source : Nat

/-- The result of `resolveProduct_`: the status written through `resolveStatus` and the
returned `ProductData const*`. A non-null pointer is the index of the holder owning the
record it points to, null is `none`. -/
structure Resolved where
  resolveStatus : ResolveStatus
  pd : Option ProductHolderIndex
  deriving DecidableEq, Repr

/-- The immutable identity of a `DataManagingProductHolder` (`InputProductHolder`,
`PuttableProductHolder`, `UnscheduledProductHolder`): where its mutable members live and its
branch description. -/
structure DataManagingProductHolder where
  index : ProductHolderIndex
  branchDescription : BranchDescription
  deriving DecidableEq, Repr

/-- Data members of `NoProcessProductHolder`. -/
structure NoProcessProductHolder where
  matchingHolders_ : List ProductHolderIndex
  ambiguous_ : List Bool
  deriving DecidableEq, Repr

/-- The holder variants of ProductHolders.cc that resolve products. -/
inductive ProductHolder where
  | input (h : DataManagingProductHolder)
  | puttable (h : DataManagingProductHolder)
  | unscheduled (h : DataManagingProductHolder)
  | noProcess (h : NoProcessProductHolder)
  deriving DecidableEq, Repr

/-- Modelled from the spec: `Principal` (absent) is the collaborator: the container of the
holders, the history lookup order, and the two operations that fill a holder as a side effect.
The operations are arbitrary functions of the world. -/
structure Principal where
  productHolders_ : List ProductHolder
  lookupProcessOrder_ : List Nat
  readFromSource_ : ProductHolderIndex → Option Nat → World → World
  unscheduledFill_ : String → Option Nat → Option Nat → World → World

namespace Principal

/-- The call `principal.readFromSource(*this, mcc)`: the collaborator acts on the world and the
call is recorded. -/
def readFromSource (principal : Principal) (holder : ProductHolderIndex) (mcc : Option Nat)
    (w : World) : World :=
  { principal.readFromSource_ holder mcc w with
    calls := w.calls ++ [Call.readFromSource holder mcc] }

/-- The call `principal.unscheduledFill(moduleLabel(), sra, mcc)`. -/
def unscheduledFill (principal : Principal) (moduleLabel : String) (sra mcc : Option Nat)
    (w : World) : World :=
  { principal.unscheduledFill_ moduleLabel sra mcc w with
    calls := w.calls ++ [Call.unscheduledFill moduleLabel sra mcc] }

/-- The call `principal.lookupProcessOrder()`. -/
def lookupProcessOrder (principal : Principal) : List Nat :=
  principal.lookupProcessOrder_

/-- The call `principal.getProductHolderByIndex(i)`; `none` is the null pointer. -/
def getProductHolderByIndex (principal : Principal) (i : ProductHolderIndex) :
    Option ProductHolder :=
  principal.productHolders_[i]?

end Principal

/-! ## DataManagingProductHolder -/

namespace DataManagingProductHolder

/-- The mutable members of this holder. -/
def data (this : DataManagingProductHolder) (w : World) : HolderData :=
  w.holders this.index

/-- Writes the mutable members of this holder. -/
def setData (this : DataManagingProductHolder) (d : HolderData) (w : World) : World :=
  { w with holders := Function.update w.holders this.index d }

/-- Modelled from the spec: the accessor `status()` (ProductHolders.h, absent) returns
`theStatus_`. -/
def status (this : DataManagingProductHolder) (w : World) : ProductStatus :=
  (this.data w).theStatus_

/-- Modelled from the spec: the accessor `getProductData()` (ProductHolders.h, absent) returns
the record `productData_`. -/
def getProductData (this : DataManagingProductHolder) (w : World) : ProductData :=
  (this.data w).productData_

/-- Modelled from the spec: the accessor `product()` (ProductHolderBase.h, absent) returns the
payload of the record, `getProductData().wrapper()`, null when there is none. -/
def product (this : DataManagingProductHolder) (w : World) : Option WrapperBase :=
  (this.getProductData w).wrapper

/-- Modelled from the spec: the accessor `moduleLabel()` (ProductHolderBase.h, absent) returns
the label of the branch description. -/
def moduleLabel (this : DataManagingProductHolder) : String :=
  this.branchDescription.moduleLabel

/-- The condition `product() && product()->isPresent()`. -/
def productIsPresent (this : DataManagingProductHolder) (w : World) : Bool :=
  match this.product w with
  | some p => p.isPresent
  | none => false

/-- The holder holds a payload whose presence flag is true. -/
def hasPresentPayload (this : DataManagingProductHolder) (w : World) : Prop :=
  ∃ p, this.product w = some p ∧ p.isPresent = true

/-- The member `setProduct`. -/
def setProduct (this : DataManagingProductHolder) (edp : Option WrapperBase) (w : World) :
    World :=
  this.setData
    { productData_ := { this.getProductData w with wrapper := edp },
      theStatus_ := ProductStatus.Present } w

/-- The member `productWasDeleted_`. -/
def productWasDeleted_ (this : DataManagingProductHolder) (w : World) : Bool :=
  decide (this.status w = ProductStatus.ProductDeleted)

/-- Modelled from the spec: `productWasDeleted()` (ProductHolderBase.h, absent) forwards to the
virtual `productWasDeleted_()`. -/
def productWasDeleted (this : DataManagingProductHolder) (w : World) : Bool :=
  this.productWasDeleted_ w

/-- The member `setProductDeleted_`. -/
def setProductDeleted_ (this : DataManagingProductHolder) (w : World) : World :=
  this.setData { this.data w with theStatus_ := ProductStatus.ProductDeleted } w

/-- Modelled from the spec: `resetStatus()` (ProductHolders.h, absent) puts the status back to
Uninitialized. -/
def resetStatus (this : DataManagingProductHolder) (w : World) : World :=
  this.setData { this.data w with theStatus_ := ProductStatus.Uninitialized } w

/-- The member `resetProductData_`. -/
def resetProductData_ (this : DataManagingProductHolder) (w : World) : World :=
  this.resetStatus
    (this.setData { this.data w with productData_ := (this.getProductData w).resetProductData } w)

/-- Modelled from the spec: `mergeTheProduct` (ProductHolderBase.cc, absent). In the words of
the spec a merge "folds a second computed value into an existing present one", is "only valid
when status is `Present`", and the fold is "supplied by the payload type": the validity is the
assertion that `ProducedProductHolder::mergeProduct_` also makes, the fold is `mergeProduct`.
It reads through `product()` and through `edp`, so a null one of them is a null dereference. -/
def mergeTheProduct (mergeProduct : WrapperBase → WrapperBase → WrapperBase)
    (this : DataManagingProductHolder) (edp : Option WrapperBase) (w : World) :
    Except Fault World :=
  if this.status w ≠ ProductStatus.Present then
    .error Fault.AssertionFailed
  else
    match this.product w, edp with
    | some p, some e =>
      .ok (this.setData
        { this.data w with
          productData_ := { this.getProductData w with wrapper := some (mergeProduct p e) } } w)
    | _, _ => .error Fault.NullDereference

/-- Modelled from the spec: a freshly constructed holder (constructor in ProductHolders.h,
absent) has an empty record and status Uninitialized. -/
def fresh : HolderData :=
  { productData_ := { wrapper := none, provenance := none },
    theStatus_ := ProductStatus.Uninitialized }

end DataManagingProductHolder

open DataManagingProductHolder

/-! ## InputProductHolder -/

namespace InputProductHolder

/-- The member `InputProductHolder::productUnavailable_`. -/
def productUnavailable_ (this : DataManagingProductHolder) (w : World) : Bool :=
  match this.product w with
  | some p => !p.isPresent
  | none => false

/-- Modelled from the spec: `productUnavailable()` (ProductHolderBase.h, absent) forwards to the
virtual `productUnavailable_()`, which `InputProductHolder` overrides. -/
def productUnavailable (this : DataManagingProductHolder) (w : World) : Bool :=
  productUnavailable_ this w

/-- The member `InputProductHolder::resolveProduct_`. -/
def resolveProduct_ (this : DataManagingProductHolder) (principal : Principal)
    (_skipCurrentProcess : Bool) (_sra : Option Nat) (mcc : Option Nat) (w : World) :
    Except Fault (Resolved × World) :=
  if this.productWasDeleted w then
    .error Fault.ProductDeleted
  else if !productUnavailable this w then
    let w1 := principal.readFromSource this.index mcc w
    if (this.product w1).isSome && !productUnavailable this w1 then
      .ok (⟨ResolveStatus.ProductFound, some this.index⟩, w1)
    else
      .ok (⟨ResolveStatus.ProductNotFound, none⟩, w1)
  else
    .ok (⟨ResolveStatus.ProductNotFound, none⟩, w)

/-- The member `InputProductHolder::mergeProduct_`. -/
def mergeProduct_ (mergeProduct : WrapperBase → WrapperBase → WrapperBase)
    (this : DataManagingProductHolder) (edp : Option WrapperBase) (w : World) :
    Except Fault World :=
  mergeTheProduct mergeProduct this edp w

/-- The member `InputProductHolder::putOrMergeProduct_`. -/
def putOrMergeProduct_ (this : DataManagingProductHolder) (w : World) : Bool :=
  (this.product w).isNone

/-- The member `InputProductHolder::putProduct_`. -/
def putProduct_ (this : DataManagingProductHolder) (edp : Option WrapperBase) (w : World) :
    Except Fault World :=
  .ok (this.setProduct edp w)

end InputProductHolder

/-! ## PuttableProductHolder, UnscheduledProductHolder, ProducedProductHolder -/

namespace PuttableProductHolder

/-- The member `PuttableProductHolder::resolveProduct_`. -/
def resolveProduct_ (this : DataManagingProductHolder) (_principal : Principal)
    (skipCurrentProcess : Bool) (_sra : Option Nat) (_mcc : Option Nat) (w : World) :
    Except Fault (Resolved × World) :=
  if !skipCurrentProcess then
    if this.productWasDeleted w then
      .error Fault.ProductDeleted
    else if this.productIsPresent w then
      .ok (⟨ResolveStatus.ProductFound, some this.index⟩, w)
    else
      .ok (⟨ResolveStatus.ProductNotFound, none⟩, w)
  else
    .ok (⟨ResolveStatus.ProductNotFound, none⟩, w)

end PuttableProductHolder

namespace UnscheduledProductHolder

/-- The member `UnscheduledProductHolder::resolveProduct_`. -/
def resolveProduct_ (this : DataManagingProductHolder) (principal : Principal)
    (skipCurrentProcess : Bool) (sra : Option Nat) (mcc : Option Nat) (w : World) :
    Except Fault (Resolved × World) :=
  if !skipCurrentProcess then
    if this.productWasDeleted w then
      .error Fault.ProductDeleted
    else if this.productIsPresent w then
      .ok (⟨ResolveStatus.ProductFound, some this.index⟩, w)
    else
      let w1 := principal.unscheduledFill this.moduleLabel sra mcc w
      if this.productIsPresent w1 then
        .ok (⟨ResolveStatus.ProductFound, some this.index⟩, w1)
      else
        .ok (⟨ResolveStatus.ProductNotFound, none⟩, w1)
  else
    .ok (⟨ResolveStatus.ProductNotFound, none⟩, w)

end UnscheduledProductHolder

namespace ProducedProductHolder

/-- The member `ProducedProductHolder::mergeProduct_`. -/
def mergeProduct_ (mergeProduct : WrapperBase → WrapperBase → WrapperBase)
    (this : DataManagingProductHolder) (edp : Option WrapperBase) (w : World) :
    Except Fault World :=
  if this.status w ≠ ProductStatus.Present then
    .error Fault.AssertionFailed
  else
    mergeTheProduct mergeProduct this edp w

/-- The member `ProducedProductHolder::putProduct_`. -/
def putProduct_ (this : DataManagingProductHolder) (edp : Option WrapperBase) (w : World) :
    Except Fault World :=
  if (this.product w).isSome then
    .error Fault.InsertFailure
  else if !this.branchDescription.produced then
    .error Fault.AssertionFailed
  else if edp.isNone then
    .error Fault.AssertionFailed
  else if this.status w = ProductStatus.Present then
    .error Fault.AssertionFailed
  else if this.status w = ProductStatus.Uninitialized then
    .error Fault.AssertionFailed
  else
    .ok (this.setProduct edp w)

end ProducedProductHolder

/-! ## NoProcessProductHolder -/

namespace NoProcessProductHolder

/-- The constructor of `NoProcessProductHolder`. -/
def new (matchingHolders : List ProductHolderIndex) (ambiguous : List Bool) :
    Except Fault NoProcessProductHolder :=
  if ambiguous.length ≠ matchingHolders.length then
    .error Fault.AssertionFailed
  else
    .ok { matchingHolders_ := matchingHolders, ambiguous_ := ambiguous }

/-- The member `NoProcessProductHolder::getProductData`. -/
def getProductData (_this : NoProcessProductHolder) (_w : World) : Except Fault ProductData :=
  .error Fault.LogicError

/-- The range-for loop of `NoProcessProductHolder::resolveProduct_` over the entries of the
lookup order still to visit. The virtual call `productHolder->resolveProduct(...)` on the
holder with index `i` is `resolveCandidate i`. -/
def resolveLoop (this : NoProcessProductHolder)
    (resolveCandidate : ProductHolderIndex → World → Except Fault (Resolved × World)) :
    List Nat → World → Except Fault (Resolved × World)
  | [], w => .ok (⟨ResolveStatus.ProductNotFound, none⟩, w)
  | k :: rest, w =>
    if ¬ k < this.ambiguous_.length then
      .error Fault.AssertionFailed
    else if k = 0 then
      .ok (⟨ResolveStatus.ProductNotFound, none⟩, w)
    else
      match this.ambiguous_[k]? with
      | none => .error Fault.OutOfRange
      | some true => .ok (⟨ResolveStatus.Ambiguous, none⟩, w)
      | some false =>
        match this.matchingHolders_[k]? with
        | none => .error Fault.OutOfRange
        | some i =>
          if i ≠ ProductHolderIndexInvalid then
            match resolveCandidate i w with
            | .error e => .error e
            | .ok (r, w1) =>
              match r.pd with
              | some _ => .ok (r, w1)
              | none => resolveLoop this resolveCandidate rest w1
          else
            resolveLoop this resolveCandidate rest w

/-- The member `NoProcessProductHolder::resolveProduct_`, with the virtual call on a candidate
holder as the parameter `resolveCandidate`. -/
def resolveProduct_ (this : NoProcessProductHolder) (principal : Principal)
    (resolveCandidate : ProductHolderIndex → World → Except Fault (Resolved × World))
    (w : World) : Except Fault (Resolved × World) :=
  resolveLoop this resolveCandidate principal.lookupProcessOrder w

end NoProcessProductHolder

/-! ## Virtual dispatch -/

/-- Modelled from the spec: `resolveProduct` (ProductHolderBase.h, absent) forwards to the
virtual `resolveProduct_` of the variant. The candidates of a `NoProcessProductHolder` are looked up with
`getProductHolderByIndex` and resolved by the same dispatch; `fuel` bounds the depth of that
nesting. -/
def resolveProduct (principal : Principal) (skipCurrentProcess : Bool) (sra mcc : Option Nat) :
    Nat → ProductHolder → World → Except Fault (Resolved × World)
  | _, .input h, w =>
    InputProductHolder.resolveProduct_ h principal skipCurrentProcess sra mcc w
  | _, .puttable h, w =>
    PuttableProductHolder.resolveProduct_ h principal skipCurrentProcess sra mcc w
  | _, .unscheduled h, w =>
    UnscheduledProductHolder.resolveProduct_ h principal skipCurrentProcess sra mcc w
  | 0, .noProcess _, _ => .error Fault.OutOfFuel
  | fuel + 1, .noProcess h, w =>
    NoProcessProductHolder.resolveProduct_ h principal
      (fun i w1 =>
        match principal.getProductHolderByIndex i with
        | none => .error Fault.NullDereference
        | some c => resolveProduct principal skipCurrentProcess sra mcc fuel c w1)
      w

/-- The candidate call of `NoProcessProductHolder::resolveProduct_` as `resolveProduct` makes
it: the holder `principal.getProductHolderByIndex(i)` resolved with the flag, the token and the
context of the caller. -/
def resolveCandidate (principal : Principal) (skipCurrentProcess : Bool) (sra mcc : Option Nat)
    (fuel : Nat) (i : ProductHolderIndex) (w : World) : Except Fault (Resolved × World) :=
  match principal.getProductHolderByIndex i with
  | none => .error Fault.NullDereference
  | some c => resolveProduct principal skipCurrentProcess sra mcc fuel c w

/-! ## Sequences of operations on one holder -/

/-- The operations `put`, `merge` and `mark_deleted` of the container on a holder. -/
inductive Operation where
  | put (edp : Option WrapperBase)
  | merge (edp : Option WrapperBase)
  | markDeleted
  deriving DecidableEq, Repr

/-- One operation on a produced (explicitly-put or on-demand) holder. -/
def ProducedProductHolder.apply (mergeProduct : WrapperBase → WrapperBase → WrapperBase)
    (this : DataManagingProductHolder) : Operation → World → Except Fault World
  | .put edp, w => ProducedProductHolder.putProduct_ this edp w
  | .merge edp, w => ProducedProductHolder.mergeProduct_ mergeProduct this edp w
  | .markDeleted, w => .ok (this.setProductDeleted_ w)

/-- One operation on an input-backed holder. -/
def InputProductHolder.apply (mergeProduct : WrapperBase → WrapperBase → WrapperBase)
    (this : DataManagingProductHolder) : Operation → World → Except Fault World
  | .put edp, w => InputProductHolder.putProduct_ this edp w
  | .merge edp, w => InputProductHolder.mergeProduct_ mergeProduct this edp w
  | .markDeleted, w => .ok (this.setProductDeleted_ w)

/-- A sequence of operations, one after the other. An operation that fails (it throws before
it writes anything) leaves the world as it was and the sequence goes on. -/
def runOperations (step : Operation → World → Except Fault World) :
    List Operation → World → World
  | [], w => w
  | op :: ops, w =>
    match step op w with
    | .ok w1 => runOperations step ops w1
    | .error _ => runOperations step ops w

/-- The world after a resolve call: the one it returns, or the unchanged one when it fails. -/
def worldAfter (w : World) : Except Fault (Resolved × World) → World
  | .ok (_, w1) => w1
  | .error _ => w

/-- What a resolve call reports, without the world. -/
def outcome : Except Fault (Resolved × World) → Except Fault Resolved
  | .ok (r, _) => .ok r
  | .error e => .error e

/-- A sequence of resolve calls on one on-demand holder within one processing unit, each with
its own `skipCurrentProcess`, token and context. -/
def UnscheduledProductHolder.resolveAll (this : DataManagingProductHolder)
    (principal : Principal) : List (Bool × Option Nat × Option Nat) → World → World
  | [], w => w
  | (skip, sra, mcc) :: rest, w =>
    UnscheduledProductHolder.resolveAll this principal rest
      (worldAfter w (UnscheduledProductHolder.resolveProduct_ this principal skip sra mcc w))

/-- Tells whether a recorded call is an `unscheduledFill` for the given module label. -/
def Call.isFillOf (moduleLabel : String) : Call → Bool
  | .unscheduledFill l _ _ => decide (l = moduleLabel)
  | .readFromSource _ _ => false

/-- The number of `unscheduledFill` calls made so far for the given module label. -/
def World.fillCount (w : World) (moduleLabel : String) : Nat :=
  (w.calls.filter (Call.isFillOf moduleLabel)).length

/-! ## Concrete holders, collaborators and worlds -/

/-- A world in which every holder is freshly constructed and no call was made. -/
def World.initial : World :=
  { holders := fun _ => DataManagingProductHolder.fresh, calls := [], source := 0 }

/-- A collaborator with no holders whose operations install nothing. -/
def Principal.idle : Principal :=
  { productHolders_ := [], lookupProcessOrder_ := [],
    readFromSource_ := fun _ _ w => w, unscheduledFill_ := fun _ _ _ w => w }

/-- A holder of a produced branch, at index 0. -/
def holderA : DataManagingProductHolder :=
  { index := 0, branchDescription := { branchName := "a", moduleLabel := "m", produced := true } }

/-- A present payload. -/
def payloadA : WrapperBase := { isPresent := true, content := 7 }

/-- Another present payload. -/
def payloadB : WrapperBase := { isPresent := true, content := 9 }

/-- A fold of two payloads: the sum of their contents. -/
def addContents (p e : WrapperBase) : WrapperBase :=
  { isPresent := p.isPresent, content := p.content + e.content }

/-- Another holder of a produced branch, at index 1. -/
def holderB : DataManagingProductHolder :=
  { index := 1, branchDescription := { branchName := "b", moduleLabel := "n", produced := true } }

/-- A collaborator holding two explicitly-put holders, with the given lookup order, whose
operations install nothing. -/
def Principal.ofOrder (order : List Nat) : Principal :=
  { productHolders_ := [ProductHolder.puttable holderA, ProductHolder.puttable holderB],
    lookupProcessOrder_ := order,
    readFromSource_ := fun _ _ w => w, unscheduledFill_ := fun _ _ _ w => w }

/-- A history-disambiguating holder: position 1 has the candidate holder 0, position 2 is
ambiguous and has no candidate. -/
def noProcessA : NoProcessProductHolder :=
  { matchingHolders_ := [ProductHolderIndexInvalid, 0, ProductHolderIndexInvalid],
    ambiguous_ := [false, false, true] }

/-- A history-disambiguating holder: position 1 has the candidate holder 0, position 2 is
ambiguous and has the candidate holder 1. -/
def noProcessB : NoProcessProductHolder :=
  { matchingHolders_ := [ProductHolderIndexInvalid, 0, 1],
    ambiguous_ := [false, false, true] }

/-- A history-disambiguating holder without ambiguous positions: positions 1 and 2 have the
candidate holders 0 and 1, position 3 has none. -/
def noProcessC : NoProcessProductHolder :=
  { matchingHolders_ := [ProductHolderIndexInvalid, 0, 1, ProductHolderIndexInvalid],
    ambiguous_ := [false, false, false, false] }

/-! ## The positions the history search passes over -/

/-- The search of `this` passes over the positions `pre`, starting in the world `w` and leaving
the world `w1`: each of them is a non-zero position of the tables that is not ambiguous, and
its candidate is the invalid index or a holder that resolves to NotFound; `w1` is the world
after the valid ones were resolved in this order. -/
inductive NoProcessProductHolder.Passes (this : NoProcessProductHolder)
    (resolveCandidate : ProductHolderIndex → World → Except Fault (Resolved × World)) :
    List Nat → World → World → Prop where
  | nil (w : World) : NoProcessProductHolder.Passes this resolveCandidate [] w w
  | invalid (k : Nat) (rest : List Nat) (w w1 : World) :
      k ≠ 0 → this.ambiguous_[k]? = some false →
      this.matchingHolders_[k]? = some ProductHolderIndexInvalid →
      NoProcessProductHolder.Passes this resolveCandidate rest w w1 →
      NoProcessProductHolder.Passes this resolveCandidate (k :: rest) w w1
  | notFound (k : Nat) (i : ProductHolderIndex) (rest : List Nat) (w w0 w1 : World) :
      k ≠ 0 → this.ambiguous_[k]? = some false →
      this.matchingHolders_[k]? = some i → i ≠ ProductHolderIndexInvalid →
      resolveCandidate i w = .ok (⟨ResolveStatus.ProductNotFound, none⟩, w0) →
      NoProcessProductHolder.Passes this resolveCandidate rest w0 w1 →
      NoProcessProductHolder.Passes this resolveCandidate (k :: rest) w w1

/-! ## The members of NoProcessProductHolder that are not implemented -/

namespace NoProcessProductHolder

/-- The member `NoProcessProductHolder::onDemandWasNotRun_`. -/
def onDemandWasNotRun_ (_this : NoProcessProductHolder) (_w : World) : Except Fault Bool :=
  .error Fault.LogicError

/-- The member `NoProcessProductHolder::productUnavailable_`. -/
def productUnavailable_ (_this : NoProcessProductHolder) (_w : World) : Except Fault Bool :=
  .error Fault.LogicError

/-- The member `NoProcessProductHolder::productWasDeleted_`. -/
def productWasDeleted_ (_this : NoProcessProductHolder) (_w : World) : Except Fault Bool :=
  .error Fault.LogicError

/-- The member `NoProcessProductHolder::putProduct_`. -/
def putProduct_ (_this : NoProcessProductHolder) (_edp : Option WrapperBase) (_w : World) :
    Except Fault World :=
  .error Fault.LogicError

/-- The member `NoProcessProductHolder::mergeProduct_`. -/
def mergeProduct_ (_this : NoProcessProductHolder) (_edp : Option WrapperBase) (_w : World) :
    Except Fault World :=
  .error Fault.LogicError

/-- The member `NoProcessProductHolder::putOrMergeProduct_`. -/
def putOrMergeProduct_ (_this : NoProcessProductHolder) (_w : World) : Except Fault Bool :=
  .error Fault.LogicError

/-- The member `NoProcessProductHolder::setProductDeleted_`. -/
def setProductDeleted_ (_this : NoProcessProductHolder) (_w : World) : Except Fault World :=
  .error Fault.LogicError

end NoProcessProductHolder

/-! ## Sequences of resolve calls on an input-backed holder, and what a call may change -/

/-- The holder holds a placeholder: a payload whose presence flag is false. -/
def DataManagingProductHolder.holdsPlaceholder (this : DataManagingProductHolder) (w : World) :
    Prop :=
  ∃ p, this.product w = some p ∧ p.isPresent = false

/-- A sequence of resolve calls on one input-backed holder within one processing unit, each
with its own `skipCurrentProcess`, token and context. -/
def InputProductHolder.resolveAll (this : DataManagingProductHolder)
    (principal : Principal) : List (Bool × Option Nat × Option Nat) → World → World
  | [], w => w
  | (skip, sra, mcc) :: rest, w =>
    InputProductHolder.resolveAll this principal rest
      (worldAfter w (InputProductHolder.resolveProduct_ this principal skip sra mcc w))

/-- Tells whether a recorded call is a `readFromSource` for the given holder. -/
def Call.isReadOf (holder : ProductHolderIndex) : Call → Bool
  | .readFromSource i _ => decide (i = holder)
  | .unscheduledFill _ _ _ => false

/-- The number of `readFromSource` calls made so far for the given holder. -/
def World.readCount (w : World) (holder : ProductHolderIndex) : Nat :=
  (w.calls.filter (Call.isReadOf holder)).length

/-- The reads and fills that `principal` performs for the holder `top` and for the holders of
its container leave the mutable members of every holder outside `touched` as they are. -/
def Principal.Confined (principal : Principal) (top : ProductHolder)
    (touched : ProductHolderIndex → Prop) : Prop :=
  (∀ h, top = ProductHolder.input h ∨ ProductHolder.input h ∈ principal.productHolders_ →
    ∀ mcc w j, ¬ touched j →
      (principal.readFromSource_ h.index mcc w).holders j = w.holders j)
  ∧ (∀ h, top = ProductHolder.unscheduled h
      ∨ ProductHolder.unscheduled h ∈ principal.productHolders_ →
    ∀ sra mcc w j, ¬ touched j →
      (principal.unscheduledFill_ h.moduleLabel sra mcc w).holders j = w.holders j)

/-! ## Collaborators that install a payload -/

/-- The world in which the payload `p` was put into the holder with index `i`, as `setProduct`
does it: the payload replaces the one of the record and the status becomes Present. -/
def World.install (i : ProductHolderIndex) (p : WrapperBase) (w : World) : World :=
  { w with
    holders := Function.update w.holders i
      { productData_ := { (w.holders i).productData_ with wrapper := some p },
        theStatus_ := ProductStatus.Present } }

/-- A placeholder payload. -/
def placeholderA : WrapperBase := { isPresent := false, content := 0 }

/-- A holder of a branch read from the input, at index 0. -/
def holderIn : DataManagingProductHolder :=
  { index := 0,
    branchDescription := { branchName := "i", moduleLabel := "src", produced := false } }

/-- A collaborator holding the input-backed holder `holderIn` and the on-demand holder
`holderB`, with the given lookup order. Its `readFromSource` puts the payload `p` into the
holder it is called for, its `unscheduledFill` puts `p` into `holderB`. -/
def Principal.installing (p : WrapperBase) (order : List Nat) : Principal :=
  { productHolders_ := [ProductHolder.input holderIn, ProductHolder.unscheduled holderB],
    lookupProcessOrder_ := order,
    readFromSource_ := fun i _ w => w.install i p,
    unscheduledFill_ := fun _ _ _ w => w.install holderB.index p }

/-! ## The world in which a put leaves a produced holder -/

/-- The member `ProducedProductHolder::putProduct_` once more, statement by statement, with the
world in which control leaves it: the world is the one it was given when the exception is
thrown or an assertion fails, since `setProduct` is its last statement and its only write. -/
def ProducedProductHolder.putProduct_leaving (this : DataManagingProductHolder)
    (edp : Option WrapperBase) (w : World) : World × Except Fault Unit :=
  if (this.product w).isSome then
    (w, .error Fault.InsertFailure)
  else if !this.branchDescription.produced then
    (w, .error Fault.AssertionFailed)
  else if edp.isNone then
    (w, .error Fault.AssertionFailed)
  else if this.status w = ProductStatus.Present then
    (w, .error Fault.AssertionFailed)
  else if this.status w = ProductStatus.Uninitialized then
    (w, .error Fault.AssertionFailed)
  else
    (this.setProduct edp w, .ok ())

/-! ## What happens to one holder between mark_deleted and a resolve -/

/-- The three holder variants that own a record. -/
inductive Variant where
  | input
  | puttable
  | unscheduled
  deriving DecidableEq, Repr

/-- One operation on a holder of the given variant. -/
def Variant.apply (mergeProduct : WrapperBase → WrapperBase → WrapperBase)
    (this : DataManagingProductHolder) : Variant → Operation → World → Except Fault World
  | .input => InputProductHolder.apply mergeProduct this
  | .puttable => ProducedProductHolder.apply mergeProduct this
  | .unscheduled => ProducedProductHolder.apply mergeProduct this

/-- The member `resolveProduct_` of the given variant. -/
def Variant.resolveProduct_ (this : DataManagingProductHolder) (principal : Principal)
    (skipCurrentProcess : Bool) (sra mcc : Option Nat) :
    Variant → World → Except Fault (Resolved × World)
  | .input => InputProductHolder.resolveProduct_ this principal skipCurrentProcess sra mcc
  | .puttable => PuttableProductHolder.resolveProduct_ this principal skipCurrentProcess sra mcc
  | .unscheduled =>
    UnscheduledProductHolder.resolveProduct_ this principal skipCurrentProcess sra mcc

/-- What the container does with a holder: one of the operations put, merge and mark_deleted,
or a resolve call. -/
inductive Event where
  | operation (op : Operation)
  | resolve (skipCurrentProcess : Bool) (sra mcc : Option Nat)
  deriving DecidableEq, Repr

/-- Tells whether an event is a put. -/
def Event.isPut : Event → Bool
  | .operation (.put _) => true
  | _ => false

/-- A sequence of events on one holder, one after the other. An operation or a resolve call
that fails leaves the world as it was (the three resolves throw before they call the
collaborator) and the sequence goes on. -/
def runEvents (mergeProduct : WrapperBase → WrapperBase → WrapperBase) (principal : Principal)
    (v : Variant) (this : DataManagingProductHolder) : List Event → World → World
  | [], w => w
  | .operation op :: rest, w =>
    match v.apply mergeProduct this op w with
    | .ok w1 => runEvents mergeProduct principal v this rest w1
    | .error _ => runEvents mergeProduct principal v this rest w
  | .resolve skip sra mcc :: rest, w =>
    runEvents mergeProduct principal v this rest
      (worldAfter w (v.resolveProduct_ this principal skip sra mcc w))

open NoProcessProductHolder

/-! ## Elementary facts about the mutable members -/

theorem data_setData (this : DataManagingProductHolder) (d : HolderData) (w : World) :
    this.data (this.setData d w) = d := by
  simp [data, setData]

theorem setData_setData (this : DataManagingProductHolder) (d e : HolderData) (w : World) :
    this.setData e (this.setData d w) = this.setData e w := by
  simp [setData]

theorem status_setProductDeleted_ (this : DataManagingProductHolder) (w : World) :
    this.status (this.setProductDeleted_ w) = ProductStatus.ProductDeleted := by
  simp [status, DataManagingProductHolder.setProductDeleted_, data_setData]

theorem product_setProductDeleted_ (this : DataManagingProductHolder) (w : World) :
    this.product (this.setProductDeleted_ w) = this.product w := by
  simp [product, DataManagingProductHolder.getProductData,
    DataManagingProductHolder.setProductDeleted_, data_setData]

theorem status_setProduct (this : DataManagingProductHolder) (edp : Option WrapperBase)
    (w : World) : this.status (this.setProduct edp w) = ProductStatus.Present := by
  simp [status, setProduct, data_setData]

theorem product_setProduct (this : DataManagingProductHolder) (edp : Option WrapperBase)
    (w : World) : this.product (this.setProduct edp w) = edp := by
  simp [product, DataManagingProductHolder.getProductData, setProduct, data_setData]

theorem productWasDeleted_iff (this : DataManagingProductHolder) (w : World) :
    this.productWasDeleted w = true ↔ this.status w = ProductStatus.ProductDeleted := by
  simp [productWasDeleted, DataManagingProductHolder.productWasDeleted_]

theorem productIsPresent_iff (this : DataManagingProductHolder) (w : World) :
    this.productIsPresent w = true ↔ this.hasPresentPayload w := by
  unfold productIsPresent hasPresentPayload
  cases this.product w <;> simp

theorem mergeTheProduct_status (mergeProduct : WrapperBase → WrapperBase → WrapperBase)
    (this : DataManagingProductHolder) (edp : Option WrapperBase) (w w1 : World)
    (h : mergeTheProduct mergeProduct this edp w = .ok w1) :
    this.status w1 = this.status w ∧ (this.product w1).isSome = true := by
  unfold mergeTheProduct at h
  split at h
  · cases h
  · split at h
    · injection h with h
      subst h
      simp [status, product, DataManagingProductHolder.getProductData, data_setData]
    · cases h

/-! ## C1: resolve after mark_deleted -/

/-- C1 (counterexample): an explicitly-put holder that held a present payload and was then marked
deleted resolves, with `skipCurrentProcess` set, to NotFound and not to the ProductDeleted
error. -/
theorem puttable_resolve_skip_after_setProductDeleted :
    outcome (PuttableProductHolder.resolveProduct_ holderA Principal.idle true none none
      (holderA.setProductDeleted_ (holderA.setProduct (some payloadA) World.initial)))
      = .ok ⟨ResolveStatus.ProductNotFound, none⟩ := by
  rfl

/-! ## C2: the Deleted status and the operations other than reset -/

/-- C2 (counterexample): a put on an input-backed holder whose status is Deleted succeeds and
makes the status Present. -/
theorem input_put_on_deleted_is_present :
    holderA.status (holderA.setProductDeleted_ World.initial) = ProductStatus.ProductDeleted
    ∧ Except.map holderA.status (InputProductHolder.putProduct_ holderA (some payloadA)
        (holderA.setProductDeleted_ World.initial)) = .ok ProductStatus.Present := by
  constructor <;> rfl

/-- C2 (amended): on a data-owning holder whose status is Deleted, `mark_deleted`, `merge` and
`resolve` either fail or leave the status Deleted. A put is not stopped by the Deleted status:
on an input-backed holder it succeeds and sets Present; on a produced holder it fails with
InsertFailure while a payload is held, and with no payload, a produced branch and a non-null
value it succeeds and sets Present. -/
theorem deleted_status_and_operations
    (mergeProduct : WrapperBase → WrapperBase → WrapperBase)
    (this : DataManagingProductHolder) (principal : Principal) (skipCurrentProcess : Bool)
    (sra mcc : Option Nat) (edp : Option WrapperBase) (w : World)
    (h : this.status w = ProductStatus.ProductDeleted) :
    this.status (this.setProductDeleted_ w) = ProductStatus.ProductDeleted
    ∧ ProducedProductHolder.mergeProduct_ mergeProduct this edp w = .error Fault.AssertionFailed
    ∧ (∀ w1, InputProductHolder.mergeProduct_ mergeProduct this edp w = .ok w1 →
        this.status w1 = ProductStatus.ProductDeleted)
    ∧ InputProductHolder.resolveProduct_ this principal skipCurrentProcess sra mcc w
        = .error Fault.ProductDeleted
    ∧ (∀ r w1, PuttableProductHolder.resolveProduct_ this principal skipCurrentProcess sra mcc w
        = .ok (r, w1) → this.status w1 = ProductStatus.ProductDeleted)
    ∧ (∀ r w1, UnscheduledProductHolder.resolveProduct_ this principal skipCurrentProcess sra
        mcc w = .ok (r, w1) → this.status w1 = ProductStatus.ProductDeleted)
    ∧ (InputProductHolder.putProduct_ this edp w = .ok (this.setProduct edp w)
        ∧ this.status (this.setProduct edp w) = ProductStatus.Present)
    ∧ ((this.product w).isSome = true →
        ProducedProductHolder.putProduct_ this edp w = .error Fault.InsertFailure)
    ∧ (this.product w = none → this.branchDescription.produced = true → edp.isSome = true →
        ProducedProductHolder.putProduct_ this edp w = .ok (this.setProduct edp w)) := by
  have hd : this.productWasDeleted w = true := (productWasDeleted_iff _ _).2 h
  refine ⟨status_setProductDeleted_ this w, ?_, ?_, ?_, ?_, ?_, ⟨rfl, status_setProduct _ _ _⟩,
    ?_, ?_⟩
  · simp [ProducedProductHolder.mergeProduct_, h]
  · intro w1 h1
    rw [(mergeTheProduct_status mergeProduct this edp w w1 h1).1, h]
  · simp [InputProductHolder.resolveProduct_, hd]
  · intro r w1 h1
    cases skipCurrentProcess <;> simp [PuttableProductHolder.resolveProduct_, hd] at h1
    rw [← h1.2, h]
  · intro r w1 h1
    cases skipCurrentProcess <;> simp [UnscheduledProductHolder.resolveProduct_, hd] at h1
    rw [← h1.2, h]
  · intro hp
    simp [ProducedProductHolder.putProduct_, hp]
  · intro hp hb he
    simp [ProducedProductHolder.putProduct_, hp, hb, h]
    cases edp <;> simp_all

/-- C2 (witness): the amended statement at a holder that was put and then marked deleted. -/
theorem deleted_status_and_operations_witness :
    holderA.status (holderA.setProductDeleted_ (holderA.setProduct (some payloadA) World.initial))
      = ProductStatus.ProductDeleted
    ∧ ProducedProductHolder.putProduct_ holderA (some payloadB)
        (holderA.setProductDeleted_ (holderA.setProduct (some payloadA) World.initial))
      = .error Fault.InsertFailure :=
  ⟨rfl, (deleted_status_and_operations addContents holderA Principal.idle false none none
    (some payloadB) (holderA.setProductDeleted_ (holderA.setProduct (some payloadA) World.initial))
    rfl).2.2.2.2.2.2.2.1 rfl⟩

/-! ## C3: a second put on a produced holder -/

theorem ProducedProductHolder.putProduct_ok (this : DataManagingProductHolder)
    (edp : Option WrapperBase) (w w1 : World)
    (h : ProducedProductHolder.putProduct_ this edp w = .ok w1) :
    w1 = this.setProduct edp w ∧ edp.isSome = true ∧ this.product w = none := by
  unfold ProducedProductHolder.putProduct_ at h
  split at h
  · cases h
  · split at h
    · cases h
    · split at h
      · cases h
      · split at h
        · cases h
        · split at h
          · cases h
          · injection h with h
            refine ⟨h.symm, ?_, ?_⟩
            · cases edp <;> simp_all
            · cases hp : this.product w <;> simp_all

theorem ProducedProductHolder.apply_product_isSome
    (mergeProduct : WrapperBase → WrapperBase → WrapperBase) (this : DataManagingProductHolder)
    (op : Operation) (w w1 : World) (hp : (this.product w).isSome = true)
    (h : ProducedProductHolder.apply mergeProduct this op w = .ok w1) :
    (this.product w1).isSome = true := by
  cases op with
  | put edp =>
    simp only [ProducedProductHolder.apply] at h
    have h1 := (ProducedProductHolder.putProduct_ok this edp w w1 h).2.2
    simp [h1] at hp
  | merge edp =>
    simp only [ProducedProductHolder.apply, ProducedProductHolder.mergeProduct_] at h
    split at h
    · cases h
    · exact (mergeTheProduct_status mergeProduct this edp w w1 h).2
  | markDeleted =>
    simp only [ProducedProductHolder.apply, Except.ok.injEq] at h
    subst h
    rw [product_setProductDeleted_]
    exact hp

theorem ProducedProductHolder.runOperations_product_isSome
    (mergeProduct : WrapperBase → WrapperBase → WrapperBase) (this : DataManagingProductHolder)
    (ops : List Operation) (w : World) (hp : (this.product w).isSome = true) :
    (this.product
      (runOperations (ProducedProductHolder.apply mergeProduct this) ops w)).isSome = true := by
  induction ops generalizing w with
  | nil => exact hp
  | cons op ops ih =>
    unfold runOperations
    cases h : ProducedProductHolder.apply mergeProduct this op w with
    | error e => exact ih w hp
    | ok w1 =>
      exact ih w1 (ProducedProductHolder.apply_product_isSome mergeProduct this op w w1 hp h)

/-- C3: on a produced holder, once a put has succeeded, a further put fails with InsertFailure,
whatever the two values and whatever puts, merges and deletions (but no reset) are applied in
between. -/
theorem ProducedProductHolder.second_put_fails
    (mergeProduct : WrapperBase → WrapperBase → WrapperBase) (this : DataManagingProductHolder)
    (first second : Option WrapperBase) (between : List Operation) (w w1 : World)
    (h : ProducedProductHolder.putProduct_ this first w = .ok w1) :
    ProducedProductHolder.putProduct_ this second
      (runOperations (ProducedProductHolder.apply mergeProduct this) between w1)
      = .error Fault.InsertFailure := by
  obtain ⟨hw, hsome, -⟩ := ProducedProductHolder.putProduct_ok this first w w1 h
  have hp : (this.product w1).isSome = true := by
    rw [hw, product_setProduct]
    exact hsome
  have := ProducedProductHolder.runOperations_product_isSome mergeProduct this between w1 hp
  simp [ProducedProductHolder.putProduct_, this]

/-- C3 (witness): a put of one payload succeeds on a holder without payload, and a put of
another payload right after it fails with InsertFailure. -/
theorem ProducedProductHolder.second_put_fails_witness :
    ProducedProductHolder.putProduct_ holderA (some payloadA)
        (holderA.setProductDeleted_ World.initial)
      = .ok (holderA.setProduct (some payloadA) (holderA.setProductDeleted_ World.initial))
    ∧ ProducedProductHolder.putProduct_ holderA (some payloadB)
        (runOperations (ProducedProductHolder.apply addContents holderA) []
          (holderA.setProduct (some payloadA) (holderA.setProductDeleted_ World.initial)))
      = .error Fault.InsertFailure :=
  ⟨rfl, ProducedProductHolder.second_put_fails addContents holderA (some payloadA)
    (some payloadB) [] (holderA.setProductDeleted_ World.initial) _ rfl⟩

/-! ## C4: how often an on-demand holder calls unscheduledFill -/

theorem fillCount_unscheduledFill (principal : Principal) (label : String)
    (sra mcc : Option Nat) (w : World) :
    (principal.unscheduledFill label sra mcc w).fillCount label = w.fillCount label + 1 := by
  simp [Principal.unscheduledFill, World.fillCount, List.filter_append, Call.isFillOf]

theorem UnscheduledProductHolder.worldAfter_resolve (this : DataManagingProductHolder)
    (principal : Principal) (skip : Bool) (sra mcc : Option Nat) (w : World) :
    worldAfter w (UnscheduledProductHolder.resolveProduct_ this principal skip sra mcc w)
      = if skip = false ∧ this.productWasDeleted w = false ∧ this.productIsPresent w = false
        then principal.unscheduledFill this.moduleLabel sra mcc w else w := by
  unfold UnscheduledProductHolder.resolveProduct_
  cases skip <;> cases hd : this.productWasDeleted w <;> cases hp : this.productIsPresent w <;>
    cases hq : this.productIsPresent (principal.unscheduledFill this.moduleLabel sra mcc w) <;>
    simp [worldAfter, hq]

/-- C4 (counterexample): two resolve calls on an on-demand holder whose fill installs nothing
call `unscheduledFill` twice within one processing unit. -/
theorem unscheduledFill_called_twice :
    (UnscheduledProductHolder.resolveAll holderA Principal.idle
      [(false, none, none), (false, none, none)] World.initial).fillCount holderA.moduleLabel
      = 2 := by
  rfl

/-- C4 (amended): within one processing unit a sequence of resolve calls on an on-demand holder
calls `unscheduledFill` at most once per resolve call, and a world in which the holder has a
present payload is left as it is by every sequence of resolve calls, so that no fill is called
again once a present value is installed. A resolve call made while no present value exists
calls the fill again. -/
theorem UnscheduledProductHolder.resolveAll_fillCount (this : DataManagingProductHolder)
    (principal : Principal) (calls : List (Bool × Option Nat × Option Nat)) (w : World) :
    (UnscheduledProductHolder.resolveAll this principal calls w).fillCount this.moduleLabel
        ≤ w.fillCount this.moduleLabel + calls.length
    ∧ (this.hasPresentPayload w →
        UnscheduledProductHolder.resolveAll this principal calls w = w)
    ∧ (∀ sra mcc, this.status w ≠ ProductStatus.ProductDeleted → ¬ this.hasPresentPayload w →
        (worldAfter w (UnscheduledProductHolder.resolveProduct_ this principal false sra mcc
          w)).fillCount this.moduleLabel = w.fillCount this.moduleLabel + 1) := by
  refine ⟨?_, ?_, ?_⟩
  · induction calls generalizing w with
    | nil => simp [UnscheduledProductHolder.resolveAll]
    | cons c rest ih =>
      obtain ⟨skip, sra, mcc⟩ := c
      unfold UnscheduledProductHolder.resolveAll
      refine le_trans (ih _) ?_
      rw [UnscheduledProductHolder.worldAfter_resolve]
      split
      · rw [fillCount_unscheduledFill]
        simp only [List.length_cons]
        omega
      · simp only [List.length_cons]
        omega
  · intro hp
    have hp1 : this.productIsPresent w = true := (productIsPresent_iff _ _).2 hp
    induction calls with
    | nil => rfl
    | cons c rest ih =>
      obtain ⟨skip, sra, mcc⟩ := c
      unfold UnscheduledProductHolder.resolveAll
      rw [UnscheduledProductHolder.worldAfter_resolve]
      simp [hp1, ih]
  · intro sra mcc hs hp
    have hp1 : this.productIsPresent w = false := by
      cases h : this.productIsPresent w
      · rfl
      · exact absurd ((productIsPresent_iff _ _).1 h) hp
    have hd : this.productWasDeleted w = false := by
      cases h : this.productWasDeleted w
      · rfl
      · exact absurd ((productWasDeleted_iff _ _).1 h) hs
    rw [UnscheduledProductHolder.worldAfter_resolve]
    simp [hp1, hd, fillCount_unscheduledFill]

/-! ## C7: reset after a sequence of operations -/

theorem setData_data (this : DataManagingProductHolder) (w : World) :
    this.setData (this.data w) w = w := by
  simp [setData, data]

theorem resetProductData_setData (this : DataManagingProductHolder) (d : HolderData)
    (w : World) : this.resetProductData_ (this.setData d w) = this.setData fresh w := by
  simp [resetProductData_, resetStatus, data_setData, setData_setData, fresh,
    ProductData.resetProductData]

theorem mergeTheProduct_footprint (mergeProduct : WrapperBase → WrapperBase → WrapperBase)
    (this : DataManagingProductHolder) (edp : Option WrapperBase) (w w1 : World)
    (h : mergeTheProduct mergeProduct this edp w = .ok w1) : ∃ d, w1 = this.setData d w := by
  unfold mergeTheProduct at h
  split at h
  · cases h
  · split at h
    · simp only [Except.ok.injEq] at h
      exact ⟨_, h.symm⟩
    · cases h

theorem apply_footprint (mergeProduct : WrapperBase → WrapperBase → WrapperBase)
    (this : DataManagingProductHolder) (step : Operation → World → Except Fault World)
    (hstep : step = InputProductHolder.apply mergeProduct this
      ∨ step = ProducedProductHolder.apply mergeProduct this)
    (op : Operation) (w w1 : World) (h : step op w = .ok w1) : ∃ d, w1 = this.setData d w := by
  rcases hstep with rfl | rfl
  · cases op with
    | put edp =>
      simp only [InputProductHolder.apply, InputProductHolder.putProduct_, Except.ok.injEq] at h
      exact ⟨_, h.symm⟩
    | merge edp =>
      exact mergeTheProduct_footprint mergeProduct this edp w w1 h
    | markDeleted =>
      simp only [InputProductHolder.apply, Except.ok.injEq] at h
      exact ⟨_, h.symm⟩
  · cases op with
    | put edp =>
      simp only [ProducedProductHolder.apply] at h
      exact ⟨_, (ProducedProductHolder.putProduct_ok this edp w w1 h).1⟩
    | merge edp =>
      simp only [ProducedProductHolder.apply, ProducedProductHolder.mergeProduct_] at h
      split at h
      · cases h
      · exact mergeTheProduct_footprint mergeProduct this edp w w1 h
    | markDeleted =>
      simp only [ProducedProductHolder.apply, Except.ok.injEq] at h
      exact ⟨_, h.symm⟩

theorem runOperations_footprint (mergeProduct : WrapperBase → WrapperBase → WrapperBase)
    (this : DataManagingProductHolder) (step : Operation → World → Except Fault World)
    (hstep : step = InputProductHolder.apply mergeProduct this
      ∨ step = ProducedProductHolder.apply mergeProduct this)
    (ops : List Operation) (w : World) : ∃ d, runOperations step ops w = this.setData d w := by
  induction ops generalizing w with
  | nil => exact ⟨this.data w, (setData_data this w).symm⟩
  | cons op ops ih =>
    unfold runOperations
    cases h : step op w with
    | error e => exact ih w
    | ok w1 =>
      obtain ⟨d, hd⟩ := apply_footprint mergeProduct this step hstep op w w1 h
      obtain ⟨e, he⟩ := ih w1
      subst hd
      exact ⟨e, by simp only [he, setData_setData]⟩

theorem resolveProduct_fresh_not_deleted (this : DataManagingProductHolder)
    (principal : Principal) (skipCurrentProcess : Bool) (sra mcc : Option Nat) (fuel : Nat)
    (variant : DataManagingProductHolder → ProductHolder)
    (hv : variant = ProductHolder.input ∨ variant = ProductHolder.puttable
      ∨ variant = ProductHolder.unscheduled) (w : World)
    (hs : this.status w ≠ ProductStatus.ProductDeleted) :
    resolveProduct principal skipCurrentProcess sra mcc fuel (variant this) w
      ≠ .error Fault.ProductDeleted := by
  have hd : this.productWasDeleted w = false := by
    cases h : this.productWasDeleted w
    · rfl
    · exact absurd ((productWasDeleted_iff _ _).1 h) hs
  rcases hv with rfl | rfl | rfl
  · have : resolveProduct principal skipCurrentProcess sra mcc fuel (ProductHolder.input this) w
        = InputProductHolder.resolveProduct_ this principal skipCurrentProcess sra mcc w := by
      cases fuel <;> rfl
    rw [this]
    unfold InputProductHolder.resolveProduct_
    simp only [hd]
    split_ifs <;> first | contradiction | simp
  · have : resolveProduct principal skipCurrentProcess sra mcc fuel (ProductHolder.puttable this)
        w = PuttableProductHolder.resolveProduct_ this principal skipCurrentProcess sra mcc w := by
      cases fuel <;> rfl
    rw [this]
    unfold PuttableProductHolder.resolveProduct_
    simp only [hd]
    split_ifs <;> first | contradiction | simp
  · have : resolveProduct principal skipCurrentProcess sra mcc fuel
        (ProductHolder.unscheduled this) w
        = UnscheduledProductHolder.resolveProduct_ this principal skipCurrentProcess sra mcc
          w := by
      cases fuel <;> rfl
    rw [this]
    unfold UnscheduledProductHolder.resolveProduct_
    simp only [hd]
    split_ifs <;> first | contradiction | simp

/-- C7: a reset after any finite sequence of put, merge and mark_deleted operations on a
data-owning holder gives the world in which this holder is freshly constructed and everything
else is as before the sequence. Hence its status is Uninitialized as for a fresh holder, every
resolve on it (any variant, both values of `skipCurrentProcess`, the same collaborator) gives
what it gives on the fresh holder, and that is never the ProductDeleted error. -/
theorem reset_after_operations (mergeProduct : WrapperBase → WrapperBase → WrapperBase)
    (this : DataManagingProductHolder) (step : Operation → World → Except Fault World)
    (hstep : step = InputProductHolder.apply mergeProduct this
      ∨ step = ProducedProductHolder.apply mergeProduct this)
    (ops : List Operation) (w : World) :
    this.resetProductData_ (runOperations step ops w) = this.setData fresh w
    ∧ this.data (this.resetProductData_ (runOperations step ops w)) = fresh
    ∧ this.status (this.resetProductData_ (runOperations step ops w))
        = ProductStatus.Uninitialized
    ∧ ∀ (principal : Principal) (skipCurrentProcess : Bool) (sra mcc : Option Nat) (fuel : Nat)
        (variant : DataManagingProductHolder → ProductHolder),
        variant = ProductHolder.input ∨ variant = ProductHolder.puttable
          ∨ variant = ProductHolder.unscheduled →
        resolveProduct principal skipCurrentProcess sra mcc fuel (variant this)
            (this.resetProductData_ (runOperations step ops w))
          = resolveProduct principal skipCurrentProcess sra mcc fuel (variant this)
            (this.setData fresh w)
        ∧ resolveProduct principal skipCurrentProcess sra mcc fuel (variant this)
            (this.resetProductData_ (runOperations step ops w))
          ≠ .error Fault.ProductDeleted := by
  obtain ⟨d, hd⟩ := runOperations_footprint mergeProduct this step hstep ops w
  have hw : this.resetProductData_ (runOperations step ops w) = this.setData fresh w := by
    rw [hd, resetProductData_setData]
  have hs : this.status (this.setData fresh w) = ProductStatus.Uninitialized := by
    simp [status, data_setData, fresh]
  refine ⟨hw, ?_, ?_, ?_⟩
  · rw [hw, data_setData]
  · rw [hw, hs]
  · intro principal skip sra mcc fuel variant hv
    rw [hw]
    refine ⟨rfl, ?_⟩
    apply resolveProduct_fresh_not_deleted this principal skip sra mcc fuel variant hv
    rw [hs]
    simp

/-- C7 (witness): put, merge, mark_deleted and then reset on a produced holder. -/
theorem reset_after_operations_witness :
    holderA.status (holderA.resetProductData_
      (runOperations (ProducedProductHolder.apply addContents holderA)
        [Operation.put (some payloadA), Operation.merge (some payloadB), Operation.markDeleted]
        (holderA.setProductDeleted_ World.initial))) = ProductStatus.Uninitialized :=
  (reset_after_operations addContents holderA (ProducedProductHolder.apply addContents holderA)
    (Or.inr rfl)
    [Operation.put (some payloadA), Operation.merge (some payloadB), Operation.markDeleted]
    (holderA.setProductDeleted_ World.initial)).2.2.1

/-! ## C8, C9: resolve of the explicitly-put variant -/

/-- C8: with `skipCurrentProcess` set, resolve of the explicitly-put variant returns NotFound
with no record, whatever the status and the record of the holder, and changes nothing. -/
theorem PuttableProductHolder.resolve_skip (this : DataManagingProductHolder)
    (principal : Principal) (sra mcc : Option Nat) (w : World) :
    PuttableProductHolder.resolveProduct_ this principal true sra mcc w
      = .ok (⟨ResolveStatus.ProductNotFound, none⟩, w) := by
  simp [PuttableProductHolder.resolveProduct_]

/-- C9: resolve of the explicitly-put variant with `skipCurrentProcess` false on a holder that
is not Deleted returns normally with the world unchanged (no collaborator call, same record
and status); it reports Found with the holder's own record exactly when a payload exists and
its presence flag is true, and NotFound with no record otherwise. -/
theorem PuttableProductHolder.resolve_noskip (this : DataManagingProductHolder)
    (principal : Principal) (sra mcc : Option Nat) (w : World)
    (h : this.status w ≠ ProductStatus.ProductDeleted) :
    ∃ r, PuttableProductHolder.resolveProduct_ this principal false sra mcc w = .ok (r, w)
      ∧ (r = ⟨ResolveStatus.ProductFound, some this.index⟩ ↔
          ∃ p, this.product w = some p ∧ p.isPresent = true)
      ∧ (r = ⟨ResolveStatus.ProductNotFound, none⟩ ↔
          ¬ ∃ p, this.product w = some p ∧ p.isPresent = true) := by
  have hd : this.productWasDeleted w = false := by
    cases h1 : this.productWasDeleted w
    · rfl
    · exact absurd ((productWasDeleted_iff _ _).1 h1) h
  have hp := productIsPresent_iff this w
  unfold hasPresentPayload at hp
  cases hq : this.productIsPresent w
  · refine ⟨⟨ResolveStatus.ProductNotFound, none⟩, ?_, ?_, ?_⟩
    · simp [PuttableProductHolder.resolveProduct_, hd, hq]
    · rw [← hp, hq]
      simp
    · rw [← hp, hq]
      simp
  · refine ⟨⟨ResolveStatus.ProductFound, some this.index⟩, ?_, ?_, ?_⟩
    · simp [PuttableProductHolder.resolveProduct_, hd, hq]
    · rw [← hp, hq]
      simp
    · rw [← hp, hq]
      simp

/-- C9 (witness): a holder on which a present payload was put resolves normally. -/
theorem PuttableProductHolder.resolve_noskip_witness :
    ∃ r, PuttableProductHolder.resolveProduct_ holderA Principal.idle false none none
        (holderA.setProduct (some payloadA) World.initial)
        = .ok (r, holderA.setProduct (some payloadA) World.initial)
      ∧ (r = ⟨ResolveStatus.ProductFound, some holderA.index⟩ ↔
          ∃ p, holderA.product (holderA.setProduct (some payloadA) World.initial) = some p
            ∧ p.isPresent = true)
      ∧ (r = ⟨ResolveStatus.ProductNotFound, none⟩ ↔
          ¬ ∃ p, holderA.product (holderA.setProduct (some payloadA) World.initial) = some p
            ∧ p.isPresent = true) :=
  PuttableProductHolder.resolve_noskip holderA Principal.idle none none
    (holderA.setProduct (some payloadA) World.initial) (by decide)

/-! ## C10: resolve of the on-demand variant -/

theorem calls_unscheduledFill (principal : Principal) (label : String) (sra mcc : Option Nat)
    (w : World) :
    (principal.unscheduledFill label sra mcc w).calls
      = w.calls ++ [Call.unscheduledFill label sra mcc] := rfl

/-- C10: resolve of the on-demand variant on a holder that is not Deleted returns normally.
The fill is called exactly when `skipCurrentProcess` is false and no present payload exists at
the call: then the world returned is the one `unscheduledFill` leaves when called with the
holder's module label and the caller's token and context, and that call is the one call added
to the record; otherwise the world, and so the record of calls, is unchanged. The status is
Found, with the holder's own record, exactly when `skipCurrentProcess` is false and a present
payload exists before the call or after the fill; otherwise it is NotFound with no record, in
particular whenever `skipCurrentProcess` is true. -/
theorem UnscheduledProductHolder.resolve_characterised (this : DataManagingProductHolder)
    (principal : Principal) (skipCurrentProcess : Bool) (sra mcc : Option Nat) (w : World)
    (h : this.status w ≠ ProductStatus.ProductDeleted) :
    ∃ r w1,
      UnscheduledProductHolder.resolveProduct_ this principal skipCurrentProcess sra mcc w
        = .ok (r, w1)
      ∧ (skipCurrentProcess = false ∧ ¬ this.hasPresentPayload w →
          w1 = principal.unscheduledFill this.moduleLabel sra mcc w
          ∧ w1.calls = w.calls ++ [Call.unscheduledFill this.moduleLabel sra mcc])
      ∧ (¬ (skipCurrentProcess = false ∧ ¬ this.hasPresentPayload w) → w1 = w)
      ∧ (r.resolveStatus = ResolveStatus.ProductFound ↔
          skipCurrentProcess = false ∧
            (this.hasPresentPayload w
              ∨ this.hasPresentPayload (principal.unscheduledFill this.moduleLabel sra mcc w)))
      ∧ (r.resolveStatus = ResolveStatus.ProductFound → r.pd = some this.index)
      ∧ (r.resolveStatus ≠ ResolveStatus.ProductFound →
          r = ⟨ResolveStatus.ProductNotFound, none⟩)
      ∧ (skipCurrentProcess = true → r = ⟨ResolveStatus.ProductNotFound, none⟩ ∧ w1 = w) := by
  have hd : this.productWasDeleted w = false := by
    cases h1 : this.productWasDeleted w
    · rfl
    · exact absurd ((productWasDeleted_iff _ _).1 h1) h
  have hp := productIsPresent_iff this w
  have hq := productIsPresent_iff this (principal.unscheduledFill this.moduleLabel sra mcc w)
  cases skipCurrentProcess with
  | true =>
    refine ⟨⟨ResolveStatus.ProductNotFound, none⟩, w, ?_, ?_, ?_, ?_, ?_, ?_, ?_⟩ <;>
      simp [UnscheduledProductHolder.resolveProduct_]
  | false =>
    cases hp1 : this.productIsPresent w with
    | true =>
      have hp2 : this.hasPresentPayload w := hp.1 hp1
      refine ⟨⟨ResolveStatus.ProductFound, some this.index⟩, w, ?_, ?_, ?_, ?_, ?_, ?_, ?_⟩ <;>
        simp [UnscheduledProductHolder.resolveProduct_, hd, hp1, hp2]
    | false =>
      have hp2 : ¬ this.hasPresentPayload w := by
        rw [← hp, hp1]
        simp
      cases hq1 : this.productIsPresent (principal.unscheduledFill this.moduleLabel sra mcc w)
        with
      | true =>
        have hq2 := hq.1 hq1
        refine ⟨⟨ResolveStatus.ProductFound, some this.index⟩,
          principal.unscheduledFill this.moduleLabel sra mcc w, ?_, ?_, ?_, ?_, ?_, ?_, ?_⟩ <;>
          simp [UnscheduledProductHolder.resolveProduct_, hd, hp1, hp2, hq1, hq2,
            calls_unscheduledFill]
      | false =>
        have hq2 : ¬ this.hasPresentPayload
            (principal.unscheduledFill this.moduleLabel sra mcc w) := by
          rw [← hq, hq1]
          simp
        refine ⟨⟨ResolveStatus.ProductNotFound, none⟩,
          principal.unscheduledFill this.moduleLabel sra mcc w, ?_, ?_, ?_, ?_, ?_, ?_, ?_⟩ <;>
          simp [UnscheduledProductHolder.resolveProduct_, hd, hp1, hp2, hq1, hq2,
            calls_unscheduledFill]

/-- C10 (witness): a fresh on-demand holder resolved against a collaborator whose fill installs
nothing: the fill is called once, with the holder's label and the caller's token. -/
theorem UnscheduledProductHolder.resolve_characterised_witness :
    holderA.status World.initial ≠ ProductStatus.ProductDeleted
    ∧ ∃ r w1,
      UnscheduledProductHolder.resolveProduct_ holderA Principal.idle false (some 5) (some 6)
        World.initial = .ok (r, w1)
      ∧ w1.calls = [Call.unscheduledFill "m" (some 5) (some 6)] := by
  refine ⟨by decide, ?_⟩
  obtain ⟨r, w1, h1, h2, -⟩ :=
    UnscheduledProductHolder.resolve_characterised holderA Principal.idle false (some 5)
      (some 6) World.initial (by decide)
  refine ⟨r, w1, h1, ?_⟩
  have hn : ¬ holderA.hasPresentPayload World.initial := by
    rintro ⟨p, hp, -⟩
    cases hp
  exact (h2 ⟨rfl, hn⟩).2

/-! ## The loop of NoProcessProductHolder::resolveProduct_ -/

theorem lt_length_of_getElem_some {α : Type} (l : List α) (k : Nat) (a : α) (h : l[k]? = some a) :
    k < l.length :=
  (List.getElem?_eq_some.1 h).1

theorem resolveLoop_zero (this : NoProcessProductHolder)
    (cand : ProductHolderIndex → World → Except Fault (Resolved × World)) (rest : List Nat)
    (w : World) (h0 : 0 < this.ambiguous_.length) :
    resolveLoop this cand (0 :: rest) w = .ok (⟨ResolveStatus.ProductNotFound, none⟩, w) := by
  simp [resolveLoop, h0]

theorem resolveLoop_ambiguous (this : NoProcessProductHolder)
    (cand : ProductHolderIndex → World → Except Fault (Resolved × World)) (k : Nat)
    (rest : List Nat) (w : World) (hk : k ≠ 0) (ha : this.ambiguous_[k]? = some true) :
    resolveLoop this cand (k :: rest) w = .ok (⟨ResolveStatus.Ambiguous, none⟩, w) := by
  have hlt := lt_length_of_getElem_some _ _ _ ha
  simp [resolveLoop, hlt, hk, ha]

theorem resolveLoop_invalid (this : NoProcessProductHolder)
    (cand : ProductHolderIndex → World → Except Fault (Resolved × World)) (k : Nat)
    (rest : List Nat) (w : World) (hk : k ≠ 0) (ha : this.ambiguous_[k]? = some false)
    (hm : this.matchingHolders_[k]? = some ProductHolderIndexInvalid) :
    resolveLoop this cand (k :: rest) w = resolveLoop this cand rest w := by
  have hlt := lt_length_of_getElem_some _ _ _ ha
  simp [resolveLoop, hlt, hk, ha, hm]

theorem resolveLoop_candidate (this : NoProcessProductHolder)
    (cand : ProductHolderIndex → World → Except Fault (Resolved × World)) (k : Nat)
    (i : ProductHolderIndex) (rest : List Nat) (w : World) (hk : k ≠ 0)
    (ha : this.ambiguous_[k]? = some false) (hm : this.matchingHolders_[k]? = some i)
    (hi : i ≠ ProductHolderIndexInvalid) :
    resolveLoop this cand (k :: rest) w =
      match cand i w with
      | .error e => .error e
      | .ok (r, w1) =>
        match r.pd with
        | some _ => .ok (r, w1)
        | none => resolveLoop this cand rest w1 := by
  have hlt := lt_length_of_getElem_some _ _ _ ha
  simp [resolveLoop, hlt, hk, ha, hm, hi]

theorem resolveLoop_passes (this : NoProcessProductHolder)
    (cand : ProductHolderIndex → World → Except Fault (Resolved × World)) (pre : List Nat)
    (w w1 : World) (hp : Passes this cand pre w w1) (rest : List Nat) :
    resolveLoop this cand (pre ++ rest) w = resolveLoop this cand rest w1 := by
  induction hp with
  | nil w => rfl
  | invalid k tl w w1 hk ha hm _ ih =>
    rw [List.cons_append, resolveLoop_invalid this cand k _ w hk ha hm, ih]
  | notFound k i tl w w0 w1 hk ha hm hi hc _ ih =>
    rw [List.cons_append, resolveLoop_candidate this cand k i _ w hk ha hm hi, hc]
    exact ih

theorem resolveLoop_takeWhile (this : NoProcessProductHolder)
    (cand : ProductHolderIndex → World → Except Fault (Resolved × World)) (order : List Nat)
    (w : World) (h0 : 0 ∈ order → 0 < this.ambiguous_.length) :
    resolveLoop this cand order w
      = resolveLoop this cand (order.takeWhile (fun k => decide (k ≠ 0))) w := by
  induction order generalizing w with
  | nil => rfl
  | cons k rest ih =>
    by_cases hk : k = 0
    · subst hk
      rw [resolveLoop_zero this cand rest w (h0 (List.mem_cons_self _ _))]
      simp [resolveLoop]
    · have ih1 : ∀ w, resolveLoop this cand rest w
          = resolveLoop this cand (rest.takeWhile (fun k => decide (k ≠ 0))) w :=
        fun w => ih w (fun h => h0 (List.mem_cons_of_mem _ h))
      rw [List.takeWhile_cons]
      simp only [hk, ne_eq, not_false_eq_true, decide_True, if_true]
      rw [resolveLoop, resolveLoop]
      simp only [ih1]

theorem resolveLoop_congr (this : NoProcessProductHolder)
    (cand other : ProductHolderIndex → World → Except Fault (Resolved × World))
    (h : ∀ i, i ≠ ProductHolderIndexInvalid → other i = cand i) (order : List Nat) (w : World) :
    resolveLoop this other order w = resolveLoop this cand order w := by
  induction order generalizing w with
  | nil => rfl
  | cons k rest ih =>
    rw [resolveLoop, resolveLoop]
    simp only [ih]
    cases this.ambiguous_[k]? with
    | none => rfl
    | some b =>
      cases b with
      | true => rfl
      | false =>
        cases this.matchingHolders_[k]? with
        | none => rfl
        | some i =>
          by_cases hi : i = ProductHolderIndexInvalid
          · simp [hi]
          · simp [hi, h i hi]

theorem passes_of_resolveLoop (this : NoProcessProductHolder)
    (cand : ProductHolderIndex → World → Except Fault (Resolved × World))
    (hc : ∀ i w r w1, cand i w = .ok (r, w1) →
      (∃ j, r = ⟨ResolveStatus.ProductFound, some j⟩) ∨ r = ⟨ResolveStatus.ProductNotFound, none⟩)
    (order : List Nat) (w w1 : World)
    (h : resolveLoop this cand order w = .ok (⟨ResolveStatus.ProductNotFound, none⟩, w1)) :
    Passes this cand (order.takeWhile (fun k => decide (k ≠ 0))) w w1 := by
  induction order generalizing w with
  | nil =>
    simp only [resolveLoop, Except.ok.injEq, Prod.mk.injEq, true_and] at h
    subst h
    exact Passes.nil w
  | cons k rest ih =>
    by_cases hlt : k < this.ambiguous_.length
    swap
    · simp [resolveLoop, hlt] at h
    by_cases hk : k = 0
    · subst hk
      simp only [resolveLoop, hlt, not_true_eq_false, if_false, if_true, Except.ok.injEq,
        Prod.mk.injEq, true_and] at h
      subst h
      simp only [List.takeWhile_cons, ne_eq, not_true_eq_false, decide_False, Bool.false_eq_true,
        if_false]
      exact Passes.nil w
    · rw [List.takeWhile_cons]
      simp only [hk, ne_eq, not_false_eq_true, decide_True, if_true]
      cases ha : this.ambiguous_[k]? with
      | none => simp [resolveLoop, hlt, hk, ha] at h
      | some b =>
        cases b with
        | true => simp [resolveLoop, hlt, hk, ha] at h
        | false =>
          cases hm : this.matchingHolders_[k]? with
          | none => simp [resolveLoop, hlt, hk, ha, hm] at h
          | some i =>
            by_cases hi : i = ProductHolderIndexInvalid
            · subst hi
              rw [resolveLoop_invalid this cand k rest w hk ha hm] at h
              exact Passes.invalid k _ w w1 hk ha hm (ih w h)
            · rw [resolveLoop_candidate this cand k i rest w hk ha hm hi] at h
              cases hcand : cand i w with
              | error e => simp [hcand] at h
              | ok p =>
                obtain ⟨r, w0⟩ := p
                rcases hc i w r w0 hcand with ⟨j, rfl⟩ | rfl
                · simp [hcand] at h
                · simp only [hcand] at h
                  exact Passes.notFound k i _ w w0 w1 hk ha hm hi hcand (ih w0 h)

theorem resolveProduct_noProcess (principal : Principal) (skipCurrentProcess : Bool)
    (sra mcc : Option Nat) (fuel : Nat) (this : NoProcessProductHolder) (w : World) :
    resolveProduct principal skipCurrentProcess sra mcc (fuel + 1) (ProductHolder.noProcess this)
        w
      = NoProcessProductHolder.resolveProduct_ this principal
          (resolveCandidate principal skipCurrentProcess sra mcc fuel) w := rfl

theorem resolveProduct_dataManaging_shape (principal : Principal) (skipCurrentProcess : Bool)
    (sra mcc : Option Nat) (fuel : Nat) (c : ProductHolder)
    (hc : ∀ h, c ≠ ProductHolder.noProcess h) (w w1 : World) (r : Resolved)
    (h : resolveProduct principal skipCurrentProcess sra mcc fuel c w = .ok (r, w1)) :
    (∃ j, r = ⟨ResolveStatus.ProductFound, some j⟩)
      ∨ r = ⟨ResolveStatus.ProductNotFound, none⟩ := by
  cases c with
  | noProcess n => exact absurd rfl (hc n)
  | input d =>
    have e : resolveProduct principal skipCurrentProcess sra mcc fuel (ProductHolder.input d) w
        = InputProductHolder.resolveProduct_ d principal skipCurrentProcess sra mcc w := by
      cases fuel <;> rfl
    rw [e] at h
    unfold InputProductHolder.resolveProduct_ at h
    dsimp only at h
    split_ifs at h <;> simp only [Except.ok.injEq, Prod.mk.injEq, reduceCtorEq] at h <;>
      first
      | exact Or.inl ⟨_, h.1.symm⟩
      | exact Or.inr h.1.symm
  | puttable d =>
    have e : resolveProduct principal skipCurrentProcess sra mcc fuel (ProductHolder.puttable d)
        w = PuttableProductHolder.resolveProduct_ d principal skipCurrentProcess sra mcc w := by
      cases fuel <;> rfl
    rw [e] at h
    unfold PuttableProductHolder.resolveProduct_ at h
    split_ifs at h <;> simp only [Except.ok.injEq, Prod.mk.injEq, reduceCtorEq] at h <;>
      first
      | exact Or.inl ⟨_, h.1.symm⟩
      | exact Or.inr h.1.symm
  | unscheduled d =>
    have e : resolveProduct principal skipCurrentProcess sra mcc fuel
        (ProductHolder.unscheduled d) w
        = UnscheduledProductHolder.resolveProduct_ d principal skipCurrentProcess sra mcc w := by
      cases fuel <;> rfl
    rw [e] at h
    unfold UnscheduledProductHolder.resolveProduct_ at h
    dsimp only at h
    split_ifs at h <;> simp only [Except.ok.injEq, Prod.mk.injEq, reduceCtorEq] at h <;>
      first
      | exact Or.inl ⟨_, h.1.symm⟩
      | exact Or.inr h.1.symm

theorem resolveCandidate_ofOrder_shape (order : List Nat) (skipCurrentProcess : Bool)
    (sra mcc : Option Nat) (fuel : Nat) (i : ProductHolderIndex) (w w1 : World) (r : Resolved)
    (h : resolveCandidate (Principal.ofOrder order) skipCurrentProcess sra mcc fuel i w
      = .ok (r, w1)) :
    (∃ j, r = ⟨ResolveStatus.ProductFound, some j⟩)
      ∨ r = ⟨ResolveStatus.ProductNotFound, none⟩ := by
  unfold resolveCandidate at h
  match i, h with
  | 0, h =>
    exact resolveProduct_dataManaging_shape _ _ _ _ _ (ProductHolder.puttable holderA)
      (fun _ e => by cases e) w w1 r h
  | 1, h =>
    exact resolveProduct_dataManaging_shape _ _ _ _ _ (ProductHolder.puttable holderB)
      (fun _ e => by cases e) w w1 r h
  | n + 2, h =>
    simp [Principal.getProductHolderByIndex, Principal.ofOrder] at h

/-! ## C5: an ambiguous position ends the history search -/

/-- C5 (counterexample): lookup order [1, 2, 0]; position 1 is not ambiguous and its candidate
does not resolve Found, it fails with ProductDeleted; position 2 is ambiguous. So the first
position that is ambiguous or resolves Found is the ambiguous position 2, and yet resolve does
not report Ambiguous: it fails with ProductDeleted. -/
theorem noProcess_deleted_candidate_before_ambiguous :
    noProcessA.ambiguous_[1]? = some false
    ∧ noProcessA.matchingHolders_[1]? = some 0
    ∧ outcome (resolveCandidate (Principal.ofOrder [1, 2, 0]) false none none 0 0
        (holderA.setProductDeleted_ World.initial)) = .error Fault.ProductDeleted
    ∧ noProcessA.ambiguous_[2]? = some true
    ∧ outcome (resolveProduct (Principal.ofOrder [1, 2, 0]) false none none 1
        (ProductHolder.noProcess noProcessA) (holderA.setProductDeleted_ World.initial))
      = .error Fault.ProductDeleted := by
  refine ⟨rfl, rfl, rfl, rfl, rfl⟩

/-- C5 (amended): if the lookup order is `pre ++ k :: post` where the search passes over the
positions `pre` (each is a non-zero position of the tables that is not ambiguous, with the
invalid candidate or a candidate that resolves normally to NotFound) and position `k` is
ambiguous, then resolve reports Ambiguous with no record, and the world it leaves is the one
left by the candidates of `pre`: no candidate at or after position `k` is resolved, whatever
`post` holds. This holds for the candidates as `resolveProduct` resolves them and for every
other behaviour of the candidates. -/
theorem NoProcessProductHolder.resolve_ambiguous (this : NoProcessProductHolder)
    (principal : Principal) (pre : List Nat) (k : Nat) (post : List Nat)
    (horder : principal.lookupProcessOrder = pre ++ k :: post) (hk : k ≠ 0)
    (ha : this.ambiguous_[k]? = some true) :
    (∀ (skipCurrentProcess : Bool) (sra mcc : Option Nat) (fuel : Nat) (w w1 : World),
      Passes this (resolveCandidate principal skipCurrentProcess sra mcc fuel) pre w w1 →
      resolveProduct principal skipCurrentProcess sra mcc (fuel + 1)
        (ProductHolder.noProcess this) w = .ok (⟨ResolveStatus.Ambiguous, none⟩, w1))
    ∧ (∀ (cand : ProductHolderIndex → World → Except Fault (Resolved × World)) (w w1 : World),
      Passes this cand pre w w1 →
      NoProcessProductHolder.resolveProduct_ this principal cand w
        = .ok (⟨ResolveStatus.Ambiguous, none⟩, w1)) := by
  have key : ∀ (cand : ProductHolderIndex → World → Except Fault (Resolved × World))
      (w w1 : World), Passes this cand pre w w1 →
      NoProcessProductHolder.resolveProduct_ this principal cand w
        = .ok (⟨ResolveStatus.Ambiguous, none⟩, w1) := by
    intro cand w w1 hp
    unfold NoProcessProductHolder.resolveProduct_
    rw [horder, resolveLoop_passes this cand pre w w1 hp,
      resolveLoop_ambiguous this cand k post w1 hk ha]
  refine ⟨?_, key⟩
  intro skip sra mcc fuel w w1 hp
  rw [resolveProduct_noProcess]
  exact key _ w w1 hp

/-- C5 (witness): the order [2, 1, 0] with position 2 ambiguous and the candidates H1 and H2 at
the positions 1 and 2 gives Ambiguous; no candidate is resolved. -/
theorem NoProcessProductHolder.resolve_ambiguous_witness :
    resolveProduct (Principal.ofOrder [2, 1, 0]) false none none 1
      (ProductHolder.noProcess noProcessB) World.initial
      = .ok (⟨ResolveStatus.Ambiguous, none⟩, World.initial) :=
  (NoProcessProductHolder.resolve_ambiguous noProcessB (Principal.ofOrder [2, 1, 0]) [] 2 [1, 0]
    rfl (by decide) rfl).1 false none none 0 World.initial World.initial (Passes.nil _)

/-! ## C6: the first candidate that resolves Found -/

/-- C6: for candidates that return Found with a record or NotFound without one, and tables with
a slot for the sentinel 0 when the order holds one: `resolveProduct` resolves the candidates
with the caller's flag, token and context; if the search passes over the positions before `k`
(non-zero, not ambiguous, candidate invalid or resolving NotFound) and the valid candidate of
the non-ambiguous position `k` resolves Found, resolve returns that Found with that record;
resolve returns NotFound exactly when the search passes over all positions before the first 0
(or the end of the order); two orders with the same entries before the first 0 give the same
result; and what the candidate resolver does at the invalid index does not change the
result. -/
theorem NoProcessProductHolder.resolve_first_found (this : NoProcessProductHolder)
    (principal : Principal)
    (cand : ProductHolderIndex → World → Except Fault (Resolved × World)) (w : World)
    (h0 : 0 ∈ principal.lookupProcessOrder → 0 < this.ambiguous_.length)
    (hc : ∀ i w r w1, cand i w = .ok (r, w1) →
      (∃ j, r = ⟨ResolveStatus.ProductFound, some j⟩)
        ∨ r = ⟨ResolveStatus.ProductNotFound, none⟩) :
    (∀ (skipCurrentProcess : Bool) (sra mcc : Option Nat) (fuel : Nat),
      resolveProduct principal skipCurrentProcess sra mcc (fuel + 1)
          (ProductHolder.noProcess this) w
        = NoProcessProductHolder.resolveProduct_ this principal
            (resolveCandidate principal skipCurrentProcess sra mcc fuel) w)
    ∧ (∀ (pre : List Nat) (k : Nat) (post : List Nat) (i j : ProductHolderIndex)
        (w1 w2 : World),
        principal.lookupProcessOrder = pre ++ k :: post → Passes this cand pre w w1 →
        k ≠ 0 → this.ambiguous_[k]? = some false → this.matchingHolders_[k]? = some i →
        i ≠ ProductHolderIndexInvalid →
        cand i w1 = .ok (⟨ResolveStatus.ProductFound, some j⟩, w2) →
        NoProcessProductHolder.resolveProduct_ this principal cand w
          = .ok (⟨ResolveStatus.ProductFound, some j⟩, w2))
    ∧ (∀ w1, NoProcessProductHolder.resolveProduct_ this principal cand w
          = .ok (⟨ResolveStatus.ProductNotFound, none⟩, w1)
        ↔ Passes this cand
            (principal.lookupProcessOrder.takeWhile (fun k => decide (k ≠ 0))) w w1)
    ∧ (∀ order : List Nat,
        order.takeWhile (fun k => decide (k ≠ 0))
          = principal.lookupProcessOrder.takeWhile (fun k => decide (k ≠ 0)) →
        (0 ∈ order → 0 < this.ambiguous_.length) →
        resolveLoop this cand order w
          = NoProcessProductHolder.resolveProduct_ this principal cand w)
    ∧ (∀ other : ProductHolderIndex → World → Except Fault (Resolved × World),
        (∀ i, i ≠ ProductHolderIndexInvalid → other i = cand i) →
        NoProcessProductHolder.resolveProduct_ this principal other w
          = NoProcessProductHolder.resolveProduct_ this principal cand w) := by
  refine ⟨fun _ _ _ _ => rfl, ?_, ?_, ?_, ?_⟩
  · intro pre k post i j w1 w2 horder hp hk ha hm hi hf
    unfold NoProcessProductHolder.resolveProduct_
    rw [horder, resolveLoop_passes this cand pre w w1 hp,
      resolveLoop_candidate this cand k i post w1 hk ha hm hi, hf]
  · intro w1
    unfold NoProcessProductHolder.resolveProduct_
    constructor
    · exact passes_of_resolveLoop this cand hc _ w w1
    · intro hp
      rw [resolveLoop_takeWhile this cand _ w h0]
      have := resolveLoop_passes this cand _ w w1 hp []
      rw [List.append_nil] at this
      rw [this]
      rfl
  · intro order ho h1
    unfold NoProcessProductHolder.resolveProduct_
    rw [resolveLoop_takeWhile this cand order w h1, ho,
      ← resolveLoop_takeWhile this cand _ w h0]
  · intro other ho
    exact resolveLoop_congr this cand other ho _ w

/-- C6 (witness): order [1, 2, 0, 3]; the candidate of position 1 resolves NotFound, that of
position 2 holds a present payload: resolve returns Found with the record of holder 1. -/
theorem NoProcessProductHolder.resolve_first_found_witness :
    resolveProduct (Principal.ofOrder [1, 2, 0, 3]) false none none 1
      (ProductHolder.noProcess noProcessC) (holderB.setProduct (some payloadA) World.initial)
      = .ok (⟨ResolveStatus.ProductFound, some 1⟩,
          holderB.setProduct (some payloadA) World.initial) :=
  have h := NoProcessProductHolder.resolve_first_found noProcessC
    (Principal.ofOrder [1, 2, 0, 3])
    (resolveCandidate (Principal.ofOrder [1, 2, 0, 3]) false none none 0)
    (holderB.setProduct (some payloadA) World.initial) (fun _ => by decide)
    (fun i w r w1 h => resolveCandidate_ofOrder_shape _ _ _ _ _ i w w1 r h)
  (h.1 false none none 0).trans
    (h.2.1 [1] 2 [0, 3] 1 1 (holderB.setProduct (some payloadA) World.initial)
      (holderB.setProduct (some payloadA) World.initial) rfl
      (Passes.notFound 1 0 [] _ _ _ (by decide) rfl rfl (by decide) rfl (Passes.nil _))
      (by decide) rfl rfl (by decide) rfl)

/-! ## C11: the resolves after a fill that installed a present value -/

theorem UnscheduledProductHolder.resolve_present (this : DataManagingProductHolder)
    (principal : Principal) (sra mcc : Option Nat) (w : World)
    (hs : this.status w ≠ ProductStatus.ProductDeleted) (hp : this.hasPresentPayload w) :
    UnscheduledProductHolder.resolveProduct_ this principal false sra mcc w
      = .ok (⟨ResolveStatus.ProductFound, some this.index⟩, w) := by
  have hd : this.productWasDeleted w = false := by
    cases h : this.productWasDeleted w
    · rfl
    · exact absurd ((productWasDeleted_iff _ _).1 h) hs
  have hp1 : this.productIsPresent w = true := (productIsPresent_iff _ _).2 hp
  simp [UnscheduledProductHolder.resolveProduct_, hd, hp1]

theorem UnscheduledProductHolder.resolveAll_of_present (this : DataManagingProductHolder)
    (principal : Principal) (calls : List (Bool × Option Nat × Option Nat)) (w : World)
    (hp : this.hasPresentPayload w) :
    UnscheduledProductHolder.resolveAll this principal calls w = w := by
  have hp1 : this.productIsPresent w = true := (productIsPresent_iff _ _).2 hp
  induction calls with
  | nil => rfl
  | cons c rest ih =>
    obtain ⟨skip, sra, mcc⟩ := c
    unfold UnscheduledProductHolder.resolveAll
    rw [UnscheduledProductHolder.worldAfter_resolve]
    simp [hp1, ih]

/-- C11 (counterexample): the first resolve of an on-demand holder triggers a fill that
installs a present value and returns Found; a later resolve in the same processing unit, made
with `skipCurrentProcess` set, returns NotFound. -/
theorem unscheduled_later_resolve_with_skip :
    outcome (UnscheduledProductHolder.resolveProduct_ holderB
        (Principal.installing payloadA []) false none none World.initial)
      = .ok ⟨ResolveStatus.ProductFound, some 1⟩
    ∧ outcome (UnscheduledProductHolder.resolveProduct_ holderB
        (Principal.installing payloadA []) true none none
        (worldAfter World.initial (UnscheduledProductHolder.resolveProduct_ holderB
          (Principal.installing payloadA []) false none none World.initial)))
      = .ok ⟨ResolveStatus.ProductNotFound, none⟩ := by
  constructor <;> rfl

/-- C11 (amended): if the first resolve (`skipCurrentProcess` false) of an on-demand holder
without present payload returns in a world where the fill has installed a present payload and
the status is not Deleted, then it returns Found with the holder's record after exactly one
`unscheduledFill` call; and after any further resolve calls, a resolve with
`skipCurrentProcess` false returns Found with the same record, one with `skipCurrentProcess`
true returns NotFound with no record, both leave the world as the first resolve left it, and
the number of `unscheduledFill` calls stays one more than before the first resolve. -/
theorem UnscheduledProductHolder.resolve_after_fill (this : DataManagingProductHolder)
    (principal : Principal) (sra mcc : Option Nat) (w w1 : World) (r : Resolved)
    (hfirst : UnscheduledProductHolder.resolveProduct_ this principal false sra mcc w
      = .ok (r, w1))
    (hbefore : ¬ this.hasPresentPayload w) (hafter : this.hasPresentPayload w1)
    (hs : this.status w1 ≠ ProductStatus.ProductDeleted) :
    r = ⟨ResolveStatus.ProductFound, some this.index⟩
    ∧ w1 = principal.unscheduledFill this.moduleLabel sra mcc w
    ∧ w1.fillCount this.moduleLabel = w.fillCount this.moduleLabel + 1
    ∧ ∀ (later : List (Bool × Option Nat × Option Nat)) (sra1 mcc1 : Option Nat),
        UnscheduledProductHolder.resolveAll this principal later w1 = w1
        ∧ UnscheduledProductHolder.resolveProduct_ this principal false sra1 mcc1
            (UnscheduledProductHolder.resolveAll this principal later w1)
          = .ok (⟨ResolveStatus.ProductFound, some this.index⟩, w1)
        ∧ UnscheduledProductHolder.resolveProduct_ this principal true sra1 mcc1
            (UnscheduledProductHolder.resolveAll this principal later w1)
          = .ok (⟨ResolveStatus.ProductNotFound, none⟩, w1)
        ∧ (UnscheduledProductHolder.resolveAll this principal later w1).fillCount
            this.moduleLabel = w.fillCount this.moduleLabel + 1 := by
  have hp0 : this.productIsPresent w = false := by
    cases h : this.productIsPresent w
    · rfl
    · exact absurd ((productIsPresent_iff _ _).1 h) hbefore
  have hw1 : w1 = principal.unscheduledFill this.moduleLabel sra mcc w
      ∧ r = ⟨ResolveStatus.ProductFound, some this.index⟩ := by
    unfold UnscheduledProductHolder.resolveProduct_ at hfirst
    cases hd : this.productWasDeleted w
    · cases hq : this.productIsPresent (principal.unscheduledFill this.moduleLabel sra mcc w)
      · simp [hd, hp0, hq] at hfirst
        obtain ⟨-, rfl⟩ := hfirst
        exact absurd ((productIsPresent_iff _ _).2 hafter) (by simp [hq])
      · simp [hd, hp0, hq] at hfirst
        exact ⟨hfirst.2.symm, hfirst.1.symm⟩
    · simp [hd] at hfirst
  obtain ⟨hw, hr⟩ := hw1
  have hcount : w1.fillCount this.moduleLabel = w.fillCount this.moduleLabel + 1 := by
    rw [hw, fillCount_unscheduledFill]
  refine ⟨hr, hw, hcount, ?_⟩
  intro later sra1 mcc1
  have hall : UnscheduledProductHolder.resolveAll this principal later w1 = w1 :=
    UnscheduledProductHolder.resolveAll_of_present this principal later w1 hafter
  refine ⟨hall, ?_, ?_, ?_⟩
  · rw [hall]
    exact UnscheduledProductHolder.resolve_present this principal sra1 mcc1 w1 hs hafter
  · rw [hall]
    simp [UnscheduledProductHolder.resolveProduct_]
  · rw [hall, hcount]

/-- C11 (witness): a fresh on-demand holder whose fill installs a present payload; after two
further resolve calls a resolve still returns Found and one fill call was made. -/
theorem UnscheduledProductHolder.resolve_after_fill_witness :
    UnscheduledProductHolder.resolveProduct_ holderB (Principal.installing payloadA []) false
        none none
        (UnscheduledProductHolder.resolveAll holderB (Principal.installing payloadA [])
          [(false, none, none), (true, none, none)]
          ((Principal.installing payloadA []).unscheduledFill "n" none none World.initial))
      = .ok (⟨ResolveStatus.ProductFound, some 1⟩,
          (Principal.installing payloadA []).unscheduledFill "n" none none World.initial)
    ∧ (UnscheduledProductHolder.resolveAll holderB (Principal.installing payloadA [])
          [(false, none, none), (true, none, none)]
          ((Principal.installing payloadA []).unscheduledFill "n" none none
            World.initial)).fillCount "n" = 1 :=
  have h := (UnscheduledProductHolder.resolve_after_fill holderB
    (Principal.installing payloadA []) none none World.initial
    ((Principal.installing payloadA []).unscheduledFill "n" none none World.initial)
    ⟨ResolveStatus.ProductFound, some 1⟩ rfl (fun ⟨_, hp, _⟩ => by cases hp)
    ⟨payloadA, rfl, rfl⟩ (by decide)).2.2.2
    [(false, none, none), (true, none, none)] none none
  ⟨h.2.1, h.2.2.2⟩

/-! ## C13: the unavailable query of the input-backed variant -/

theorem productUnavailable_iff (this : DataManagingProductHolder) (w : World) :
    InputProductHolder.productUnavailable this w = true ↔ this.holdsPlaceholder w := by
  unfold InputProductHolder.productUnavailable InputProductHolder.productUnavailable_
    holdsPlaceholder
  cases this.product w <;> simp

/-- C13: the unavailable query of the input-backed variant is true exactly when a payload
exists and its presence flag is false; it is false when a payload exists and is present, and
false when no payload exists. -/
theorem InputProductHolder.productUnavailable_characterised (this : DataManagingProductHolder)
    (w : World) :
    (InputProductHolder.productUnavailable_ this w = true ↔
      ∃ p, this.product w = some p ∧ p.isPresent = false)
    ∧ ((∃ p, this.product w = some p ∧ p.isPresent = true) →
      InputProductHolder.productUnavailable_ this w = false)
    ∧ (this.product w = none → InputProductHolder.productUnavailable_ this w = false) := by
  unfold InputProductHolder.productUnavailable_
  cases this.product w <;> simp

/-! ## C12: resolve of the input-backed variant -/

theorem calls_readFromSource (principal : Principal) (i : ProductHolderIndex)
    (mcc : Option Nat) (w : World) :
    (principal.readFromSource i mcc w).calls = w.calls ++ [Call.readFromSource i mcc] := rfl

theorem InputProductHolder.found_condition (this : DataManagingProductHolder) (w : World) :
    ((this.product w).isSome && !InputProductHolder.productUnavailable this w) = true
      ↔ this.hasPresentPayload w := by
  unfold InputProductHolder.productUnavailable InputProductHolder.productUnavailable_
    hasPresentPayload
  cases this.product w <;> simp

/-- C12: resolve of the input-backed variant on a holder that is not Deleted returns normally.
The read is called exactly when the holder is not known-unavailable (holds no placeholder) at
the call: then the world returned is the one `readFromSource` leaves when called for this
holder with the caller's context, and that call is the one call added to the record; otherwise
the world, and so the record of calls, is unchanged. The status is Found, with the holder's
own record, exactly when the read was called and after it a payload with presence true
exists; otherwise it is NotFound with no record. -/
theorem InputProductHolder.resolve_reads_source (this : DataManagingProductHolder)
    (principal : Principal) (skipCurrentProcess : Bool) (sra mcc : Option Nat) (w : World)
    (h : this.status w ≠ ProductStatus.ProductDeleted) :
    ∃ r w1,
      InputProductHolder.resolveProduct_ this principal skipCurrentProcess sra mcc w
        = .ok (r, w1)
      ∧ (¬ this.holdsPlaceholder w →
          w1 = principal.readFromSource this.index mcc w
          ∧ w1.calls = w.calls ++ [Call.readFromSource this.index mcc])
      ∧ (this.holdsPlaceholder w → w1 = w)
      ∧ (r.resolveStatus = ResolveStatus.ProductFound ↔
          ¬ this.holdsPlaceholder w
            ∧ this.hasPresentPayload (principal.readFromSource this.index mcc w))
      ∧ (r.resolveStatus = ResolveStatus.ProductFound → r.pd = some this.index)
      ∧ (r.resolveStatus ≠ ResolveStatus.ProductFound →
          r = ⟨ResolveStatus.ProductNotFound, none⟩) := by
  have hd : this.productWasDeleted w = false := by
    cases h1 : this.productWasDeleted w
    · rfl
    · exact absurd ((productWasDeleted_iff _ _).1 h1) h
  have hu := productUnavailable_iff this w
  have hq := InputProductHolder.found_condition this (principal.readFromSource this.index mcc w)
  cases hu1 : InputProductHolder.productUnavailable this w with
  | true =>
    have hu2 : this.holdsPlaceholder w := hu.1 hu1
    refine ⟨⟨ResolveStatus.ProductNotFound, none⟩, w, ?_, ?_, ?_, ?_, ?_, ?_⟩ <;>
      simp [InputProductHolder.resolveProduct_, hd, hu1, hu2]
  | false =>
    have hu2 : ¬ this.holdsPlaceholder w := by
      rw [← hu, hu1]
      simp
    cases hq1 : ((this.product (principal.readFromSource this.index mcc w)).isSome
        && !InputProductHolder.productUnavailable this
          (principal.readFromSource this.index mcc w)) with
    | true =>
      have hq2 := hq.1 hq1
      refine ⟨⟨ResolveStatus.ProductFound, some this.index⟩,
        principal.readFromSource this.index mcc w, ?_, ?_, ?_, ?_, ?_, ?_⟩
      · simp only [InputProductHolder.resolveProduct_, hd, hu1, hq1]
        simp
      all_goals simp [hu2, hq2, calls_readFromSource]
    | false =>
      have hq2 : ¬ this.hasPresentPayload (principal.readFromSource this.index mcc w) := by
        rw [← hq, hq1]
        simp
      refine ⟨⟨ResolveStatus.ProductNotFound, none⟩,
        principal.readFromSource this.index mcc w, ?_, ?_, ?_, ?_, ?_, ?_⟩
      · simp only [InputProductHolder.resolveProduct_, hd, hu1, hq1]
        simp
      all_goals simp [hu2, hq2, calls_readFromSource]

/-- C12 (witness): a holder with no prior read whose read installs a placeholder resolves to
NotFound; a holder whose read installs a payload with presence true resolves to Found. -/
theorem InputProductHolder.resolve_reads_source_witness :
    outcome (InputProductHolder.resolveProduct_ holderIn
        (Principal.installing placeholderA []) false none none World.initial)
      = .ok ⟨ResolveStatus.ProductNotFound, none⟩
    ∧ outcome (InputProductHolder.resolveProduct_ holderIn
        (Principal.installing payloadA []) false none none World.initial)
      = .ok ⟨ResolveStatus.ProductFound, some 0⟩ := by
  constructor
  · obtain ⟨r, w1, h1, -, -, h4, -, h6⟩ :=
      InputProductHolder.resolve_reads_source holderIn (Principal.installing placeholderA [])
        false none none World.initial (by decide)
    have hn : r.resolveStatus ≠ ResolveStatus.ProductFound := by
      intro hf
      obtain ⟨-, p, hp, hpres⟩ := h4.1 hf
      cases hp
      cases hpres
    rw [h1, h6 hn]
    rfl
  · rfl

/-! ## C14: how often an input-backed holder calls readFromSource -/

theorem readCount_readFromSource (principal : Principal) (i : ProductHolderIndex)
    (mcc : Option Nat) (w : World) :
    (principal.readFromSource i mcc w).readCount i = w.readCount i + 1 := by
  simp [Principal.readFromSource, World.readCount, List.filter_append, Call.isReadOf]

theorem InputProductHolder.worldAfter_resolve_input (this : DataManagingProductHolder)
    (principal : Principal) (skip : Bool) (sra mcc : Option Nat) (w : World) :
    worldAfter w (InputProductHolder.resolveProduct_ this principal skip sra mcc w)
      = if this.productWasDeleted w = false
          ∧ InputProductHolder.productUnavailable this w = false
        then principal.readFromSource this.index mcc w else w := by
  unfold InputProductHolder.resolveProduct_
  cases hd : this.productWasDeleted w <;>
    cases hu : InputProductHolder.productUnavailable this w <;>
    cases hq : ((this.product (principal.readFromSource this.index mcc w)).isSome
      && !InputProductHolder.productUnavailable this
        (principal.readFromSource this.index mcc w)) <;>
    simp [worldAfter, hq]

/-- C14 (counterexample): the first resolve of an input-backed holder reads a real present
payload from the source; a second resolve in the same processing unit calls `readFromSource`
for the holder again. -/
theorem readFromSource_called_twice :
    holderIn.product (InputProductHolder.resolveAll holderIn (Principal.installing payloadA [])
      [(false, none, none)] World.initial) = some payloadA
    ∧ (InputProductHolder.resolveAll holderIn (Principal.installing payloadA [])
      [(false, none, none)] World.initial).readCount holderIn.index = 1
    ∧ (InputProductHolder.resolveAll holderIn (Principal.installing payloadA [])
      [(false, none, none), (false, none, none)] World.initial).readCount holderIn.index
      = 2 := by
  refine ⟨rfl, rfl, rfl⟩

/-- C14 (amended): within one processing unit a sequence of resolve calls on an input-backed
holder calls `readFromSource` for it at most once per resolve call, and a world in which the
holder holds a placeholder is left as it is by every sequence of resolve calls, so that no
read is called again once a placeholder is installed. A resolve call made while the holder is
not Deleted and holds no placeholder calls the read again, also when it already holds a
present payload. -/
theorem InputProductHolder.resolveAll_readCount (this : DataManagingProductHolder)
    (principal : Principal) (calls : List (Bool × Option Nat × Option Nat)) (w : World) :
    (InputProductHolder.resolveAll this principal calls w).readCount this.index
        ≤ w.readCount this.index + calls.length
    ∧ (this.holdsPlaceholder w → InputProductHolder.resolveAll this principal calls w = w)
    ∧ (∀ skip sra mcc, this.status w ≠ ProductStatus.ProductDeleted →
        ¬ this.holdsPlaceholder w →
        (worldAfter w (InputProductHolder.resolveProduct_ this principal skip sra mcc
          w)).readCount this.index = w.readCount this.index + 1) := by
  refine ⟨?_, ?_, ?_⟩
  · induction calls generalizing w with
    | nil => simp [InputProductHolder.resolveAll]
    | cons c rest ih =>
      obtain ⟨skip, sra, mcc⟩ := c
      unfold InputProductHolder.resolveAll
      refine le_trans (ih _) ?_
      rw [InputProductHolder.worldAfter_resolve_input]
      split
      · rw [readCount_readFromSource]
        simp only [List.length_cons]
        omega
      · simp only [List.length_cons]
        omega
  · intro hp
    have hp1 : InputProductHolder.productUnavailable this w = true :=
      (productUnavailable_iff _ _).2 hp
    induction calls with
    | nil => rfl
    | cons c rest ih =>
      obtain ⟨skip, sra, mcc⟩ := c
      unfold InputProductHolder.resolveAll
      rw [InputProductHolder.worldAfter_resolve_input]
      simp [hp1, ih]
  · intro skip sra mcc hs hp
    have hp1 : InputProductHolder.productUnavailable this w = false := by
      cases h : InputProductHolder.productUnavailable this w
      · rfl
      · exact absurd ((productUnavailable_iff _ _).1 h) hp
    have hd : this.productWasDeleted w = false := by
      cases h : this.productWasDeleted w
      · rfl
      · exact absurd ((productWasDeleted_iff _ _).1 h) hs
    rw [InputProductHolder.worldAfter_resolve_input]
    simp [hp1, hd, readCount_readFromSource]

/-! ## C16: mark_deleted -/

/-- C16: `mark_deleted` on a data-owning holder sets the status to Deleted whatever the status
and the record were, so that the was-deleted query is true afterwards; it leaves the record as
it was, and applying it twice gives the same world as applying it once. -/
theorem setProductDeleted_characterised (this : DataManagingProductHolder) (w : World) :
    this.status (this.setProductDeleted_ w) = ProductStatus.ProductDeleted
    ∧ this.productWasDeleted (this.setProductDeleted_ w) = true
    ∧ this.getProductData (this.setProductDeleted_ w) = this.getProductData w
    ∧ this.setProductDeleted_ (this.setProductDeleted_ w) = this.setProductDeleted_ w := by
  refine ⟨status_setProductDeleted_ this w,
    (productWasDeleted_iff _ _).2 (status_setProductDeleted_ this w), ?_, ?_⟩
  · simp [DataManagingProductHolder.getProductData,
      DataManagingProductHolder.setProductDeleted_, data_setData]
  · simp [DataManagingProductHolder.setProductDeleted_, data_setData, setData_setData]

/-! ## C17: the operations a NoProcessProductHolder does not implement -/

/-- C17: on the history-disambiguating variant put, merge, mark_deleted, the put-or-merge
decision, the queries was-deleted, unavailable and on-demand-not-run, and the access to the
product record each fail with LogicError, for every holder, value and world. -/
theorem NoProcessProductHolder.unimplemented_members (this : NoProcessProductHolder)
    (edp : Option WrapperBase) (w : World) :
    NoProcessProductHolder.putProduct_ this edp w = .error Fault.LogicError
    ∧ NoProcessProductHolder.mergeProduct_ this edp w = .error Fault.LogicError
    ∧ NoProcessProductHolder.setProductDeleted_ this w = .error Fault.LogicError
    ∧ NoProcessProductHolder.putOrMergeProduct_ this w = .error Fault.LogicError
    ∧ NoProcessProductHolder.productWasDeleted_ this w = .error Fault.LogicError
    ∧ NoProcessProductHolder.productUnavailable_ this w = .error Fault.LogicError
    ∧ NoProcessProductHolder.onDemandWasNotRun_ this w = .error Fault.LogicError
    ∧ NoProcessProductHolder.getProductData this w = .error Fault.LogicError :=
  ⟨rfl, rfl, rfl, rfl, rfl, rfl, rfl, rfl⟩

/-! ## C18: status and record of a resolve that returns -/

theorem resolveLoop_consistent (this : NoProcessProductHolder)
    (cand : ProductHolderIndex → World → Except Fault (Resolved × World))
    (hc : ∀ i w r w1, cand i w = .ok (r, w1) →
      ((∃ j, r.pd = some j) ↔ r.resolveStatus = ResolveStatus.ProductFound))
    (order : List Nat) (w w1 : World) (r : Resolved)
    (h : resolveLoop this cand order w = .ok (r, w1)) :
    ((∃ j, r.pd = some j) ↔ r.resolveStatus = ResolveStatus.ProductFound) := by
  induction order generalizing w with
  | nil =>
    simp only [resolveLoop, Except.ok.injEq, Prod.mk.injEq] at h
    rw [← h.1]
    simp
  | cons k rest ih =>
    by_cases hlt : k < this.ambiguous_.length
    swap
    · simp [resolveLoop, hlt] at h
    by_cases hk : k = 0
    · subst hk
      simp only [resolveLoop, hlt, not_true_eq_false, if_false, if_true, Except.ok.injEq,
        Prod.mk.injEq] at h
      rw [← h.1]
      simp
    · cases ha : this.ambiguous_[k]? with
      | none => simp [resolveLoop, hlt, hk, ha] at h
      | some b =>
        cases b with
        | true =>
          simp only [resolveLoop, hlt, hk, ha, not_true_eq_false, if_false, Except.ok.injEq,
            Prod.mk.injEq] at h
          rw [← h.1]
          simp
        | false =>
          cases hm : this.matchingHolders_[k]? with
          | none => simp [resolveLoop, hlt, hk, ha, hm] at h
          | some i =>
            by_cases hi : i = ProductHolderIndexInvalid
            · subst hi
              rw [resolveLoop_invalid this cand k rest w hk ha hm] at h
              exact ih w h
            · rw [resolveLoop_candidate this cand k i rest w hk ha hm hi] at h
              cases hcand : cand i w with
              | error e => simp [hcand] at h
              | ok p =>
                obtain ⟨r0, w0⟩ := p
                cases hpd : r0.pd with
                | none =>
                  simp only [hcand, hpd] at h
                  exact ih w0 h
                | some j =>
                  simp only [hcand, hpd, Except.ok.injEq, Prod.mk.injEq] at h
                  rw [← h.1]
                  exact hc i w r0 w0 hcand

theorem resolveProduct_consistent (principal : Principal) (skipCurrentProcess : Bool)
    (sra mcc : Option Nat) (fuel : Nat) (holder : ProductHolder) (w w1 : World) (r : Resolved)
    (h : resolveProduct principal skipCurrentProcess sra mcc fuel holder w = .ok (r, w1)) :
    ((∃ j, r.pd = some j) ↔ r.resolveStatus = ResolveStatus.ProductFound) := by
  induction fuel generalizing holder w w1 r with
  | zero =>
    cases holder with
    | noProcess n => simp [resolveProduct] at h
    | input d =>
      rcases resolveProduct_dataManaging_shape _ _ _ _ _ _ (fun _ e => by cases e) w w1 r h
        with ⟨j, rfl⟩ | rfl <;> simp
    | puttable d =>
      rcases resolveProduct_dataManaging_shape _ _ _ _ _ _ (fun _ e => by cases e) w w1 r h
        with ⟨j, rfl⟩ | rfl <;> simp
    | unscheduled d =>
      rcases resolveProduct_dataManaging_shape _ _ _ _ _ _ (fun _ e => by cases e) w w1 r h
        with ⟨j, rfl⟩ | rfl <;> simp
  | succ fuel ih =>
    cases holder with
    | noProcess n =>
      rw [resolveProduct_noProcess] at h
      refine resolveLoop_consistent n _ ?_ _ w w1 r h
      intro i w2 r2 w3 h2
      unfold resolveCandidate at h2
      cases hg : principal.getProductHolderByIndex i with
      | none => simp [hg] at h2
      | some c =>
        simp only [hg] at h2
        exact ih c w2 w3 r2 h2
    | input d =>
      rcases resolveProduct_dataManaging_shape _ _ _ _ _ _ (fun _ e => by cases e) w w1 r h
        with ⟨j, rfl⟩ | rfl <;> simp
    | puttable d =>
      rcases resolveProduct_dataManaging_shape _ _ _ _ _ _ (fun _ e => by cases e) w w1 r h
        with ⟨j, rfl⟩ | rfl <;> simp
    | unscheduled d =>
      rcases resolveProduct_dataManaging_shape _ _ _ _ _ _ (fun _ e => by cases e) w w1 r h
        with ⟨j, rfl⟩ | rfl <;> simp

/-- C18: whenever resolve returns normally, on a holder of any variant (input-backed,
explicitly-put, on-demand, history-disambiguating with candidates of any variant), the status
it reports is one of Found, NotFound and Ambiguous, a record is returned exactly when the
status is Found, and with NotFound or Ambiguous no record is returned. -/
theorem resolveProduct_outcome (principal : Principal) (skipCurrentProcess : Bool)
    (sra mcc : Option Nat) (fuel : Nat) (holder : ProductHolder) (w w1 : World) (r : Resolved)
    (h : resolveProduct principal skipCurrentProcess sra mcc fuel holder w = .ok (r, w1)) :
    (r.resolveStatus = ResolveStatus.ProductFound
      ∨ r.resolveStatus = ResolveStatus.ProductNotFound
      ∨ r.resolveStatus = ResolveStatus.Ambiguous)
    ∧ ((∃ j, r.pd = some j) ↔ r.resolveStatus = ResolveStatus.ProductFound)
    ∧ (r.resolveStatus = ResolveStatus.ProductNotFound
        ∨ r.resolveStatus = ResolveStatus.Ambiguous → r.pd = none) := by
  have hc := resolveProduct_consistent principal skipCurrentProcess sra mcc fuel holder w w1 r h
  refine ⟨?_, hc, ?_⟩
  · cases r.resolveStatus <;> simp
  · intro hs
    cases hpd : r.pd with
    | none => rfl
    | some j =>
      have := hc.1 ⟨j, hpd⟩
      rcases hs with hs | hs <;> rw [this] at hs <;> cases hs

/-- C18 (witness): the history search of the order [2, 1, 0] over an ambiguous position
returns normally, with the status Ambiguous and no record. -/
theorem resolveProduct_outcome_witness :
    resolveProduct (Principal.ofOrder [2, 1, 0]) false none none 1
        (ProductHolder.noProcess noProcessB) World.initial
      = .ok (⟨ResolveStatus.Ambiguous, none⟩, World.initial)
    ∧ (⟨ResolveStatus.Ambiguous, none⟩ : Resolved).pd = none :=
  ⟨rfl, (resolveProduct_outcome (Principal.ofOrder [2, 1, 0]) false none none 1
    (ProductHolder.noProcess noProcessB) World.initial World.initial
    ⟨ResolveStatus.Ambiguous, none⟩ rfl).2.2 (Or.inr rfl)⟩

/-! ## C19: which holders a resolve call changes -/

theorem PuttableProductHolder.puttable_resolve_world (this : DataManagingProductHolder)
    (principal : Principal) (skip : Bool) (sra mcc : Option Nat) (w w1 : World) (r : Resolved)
    (h : PuttableProductHolder.resolveProduct_ this principal skip sra mcc w = .ok (r, w1)) :
    w1 = w := by
  unfold PuttableProductHolder.resolveProduct_ at h
  split_ifs at h <;> simp only [Except.ok.injEq, Prod.mk.injEq, reduceCtorEq] at h <;>
    exact h.2.symm

theorem InputProductHolder.input_resolve_world (this : DataManagingProductHolder)
    (principal : Principal) (skip : Bool) (sra mcc : Option Nat) (w w1 : World) (r : Resolved)
    (h : InputProductHolder.resolveProduct_ this principal skip sra mcc w = .ok (r, w1)) :
    w1 = w ∨ w1 = principal.readFromSource this.index mcc w := by
  unfold InputProductHolder.resolveProduct_ at h
  dsimp only at h
  split_ifs at h <;> simp only [Except.ok.injEq, Prod.mk.injEq, reduceCtorEq] at h <;>
    first
    | exact Or.inl h.2.symm
    | exact Or.inr h.2.symm

theorem UnscheduledProductHolder.unscheduled_resolve_world (this : DataManagingProductHolder)
    (principal : Principal) (skip : Bool) (sra mcc : Option Nat) (w w1 : World) (r : Resolved)
    (h : UnscheduledProductHolder.resolveProduct_ this principal skip sra mcc w = .ok (r, w1)) :
    w1 = w ∨ w1 = principal.unscheduledFill this.moduleLabel sra mcc w := by
  unfold UnscheduledProductHolder.resolveProduct_ at h
  dsimp only at h
  split_ifs at h <;> simp only [Except.ok.injEq, Prod.mk.injEq, reduceCtorEq] at h <;>
    first
    | exact Or.inl h.2.symm
    | exact Or.inr h.2.symm

theorem resolveLoop_frame (this : NoProcessProductHolder)
    (cand : ProductHolderIndex → World → Except Fault (Resolved × World))
    (j : ProductHolderIndex)
    (hc : ∀ i w r w1, cand i w = .ok (r, w1) → w1.holders j = w.holders j)
    (order : List Nat) (w w1 : World) (r : Resolved)
    (h : resolveLoop this cand order w = .ok (r, w1)) : w1.holders j = w.holders j := by
  induction order generalizing w with
  | nil =>
    simp only [resolveLoop, Except.ok.injEq, Prod.mk.injEq] at h
    rw [← h.2]
  | cons k rest ih =>
    by_cases hlt : k < this.ambiguous_.length
    swap
    · simp [resolveLoop, hlt] at h
    by_cases hk : k = 0
    · subst hk
      simp only [resolveLoop, hlt, not_true_eq_false, if_false, if_true, Except.ok.injEq,
        Prod.mk.injEq] at h
      rw [← h.2]
    · cases ha : this.ambiguous_[k]? with
      | none => simp [resolveLoop, hlt, hk, ha] at h
      | some b =>
        cases b with
        | true =>
          simp only [resolveLoop, hlt, hk, ha, not_true_eq_false, if_false, Except.ok.injEq,
            Prod.mk.injEq] at h
          rw [← h.2]
        | false =>
          cases hm : this.matchingHolders_[k]? with
          | none => simp [resolveLoop, hlt, hk, ha, hm] at h
          | some i =>
            by_cases hi : i = ProductHolderIndexInvalid
            · subst hi
              rw [resolveLoop_invalid this cand k rest w hk ha hm] at h
              exact ih w h
            · rw [resolveLoop_candidate this cand k i rest w hk ha hm hi] at h
              cases hcand : cand i w with
              | error e => simp [hcand] at h
              | ok p =>
                obtain ⟨r0, w0⟩ := p
                have h0 := hc i w r0 w0 hcand
                cases hpd : r0.pd with
                | none =>
                  simp only [hcand, hpd] at h
                  rw [ih w0 h, h0]
                | some j0 =>
                  simp only [hcand, hpd, Except.ok.injEq, Prod.mk.injEq] at h
                  rw [← h.2, h0]

theorem resolveProduct_frame (principal : Principal) (skipCurrentProcess : Bool)
    (sra mcc : Option Nat) (j : ProductHolderIndex) (fuel : Nat) (top : ProductHolder)
    (hread : ∀ h, top = ProductHolder.input h
        ∨ ProductHolder.input h ∈ principal.productHolders_ →
      ∀ mcc w, (principal.readFromSource_ h.index mcc w).holders j = w.holders j)
    (hfill : ∀ h, top = ProductHolder.unscheduled h
        ∨ ProductHolder.unscheduled h ∈ principal.productHolders_ →
      ∀ sra mcc w, (principal.unscheduledFill_ h.moduleLabel sra mcc w).holders j = w.holders j)
    (w w1 : World) (r : Resolved)
    (h : resolveProduct principal skipCurrentProcess sra mcc fuel top w = .ok (r, w1)) :
    w1.holders j = w.holders j := by
  induction fuel generalizing top w w1 r with
  | zero =>
    cases top with
    | noProcess n => simp [resolveProduct] at h
    | input d =>
      rcases InputProductHolder.input_resolve_world d principal _ _ _ w w1 r h with rfl | rfl
      · rfl
      · exact hread d (Or.inl rfl) mcc w
    | puttable d =>
      rw [PuttableProductHolder.puttable_resolve_world d principal _ _ _ w w1 r h]
    | unscheduled d =>
      rcases UnscheduledProductHolder.unscheduled_resolve_world d principal _ _ _ w w1 r h with rfl | rfl
      · rfl
      · exact hfill d (Or.inl rfl) sra mcc w
  | succ fuel ih =>
    cases top with
    | noProcess n =>
      rw [resolveProduct_noProcess] at h
      refine resolveLoop_frame n _ j ?_ _ w w1 r h
      intro i w2 r2 w3 h2
      unfold resolveCandidate at h2
      cases hg : principal.getProductHolderByIndex i with
      | none => simp [hg] at h2
      | some c =>
        simp only [hg] at h2
        have hmem : c ∈ principal.productHolders_ := List.getElem?_mem hg
        refine ih c ?_ ?_ w2 w3 r2 h2
        · intro d hd
          refine hread d (Or.inr ?_)
          rcases hd with rfl | hd
          · exact hmem
          · exact hd
        · intro d hd
          refine hfill d (Or.inr ?_)
          rcases hd with rfl | hd
          · exact hmem
          · exact hd
    | input d =>
      rcases InputProductHolder.input_resolve_world d principal _ _ _ w w1 r h with rfl | rfl
      · rfl
      · exact hread d (Or.inl rfl) mcc w
    | puttable d =>
      rw [PuttableProductHolder.puttable_resolve_world d principal _ _ _ w w1 r h]
    | unscheduled d =>
      rcases UnscheduledProductHolder.unscheduled_resolve_world d principal _ _ _ w w1 r h with rfl | rfl
      · rfl
      · exact hfill d (Or.inl rfl) sra mcc w

/-- C19 (counterexample): a resolve call on a history-disambiguating holder whose candidate at
position 1 is the input-backed holder with index 0 returns Found, and the record and the status
of that candidate, a holder other than the one resolved, are no longer what they were before
the call. -/
theorem noProcess_resolve_changes_candidate :
    outcome (resolveProduct (Principal.installing payloadA [1, 0]) false none none 1
        (ProductHolder.noProcess noProcessA) World.initial)
      = .ok ⟨ResolveStatus.ProductFound, some 0⟩
    ∧ World.initial.holders 0
      = { productData_ := { wrapper := none, provenance := none },
          theStatus_ := ProductStatus.Uninitialized }
    ∧ (worldAfter World.initial (resolveProduct (Principal.installing payloadA [1, 0]) false
        none none 1 (ProductHolder.noProcess noProcessA) World.initial)).holders 0
      = { productData_ := { wrapper := some payloadA, provenance := none },
          theStatus_ := ProductStatus.Present } := by
  refine ⟨rfl, rfl, rfl⟩

/-- C19 (amended): a resolve call writes to no holder itself; what changes is changed by the
collaborator operations it calls. On an explicitly-put holder it leaves the world as it is. On
an input-backed or on-demand holder the world it returns is the one before the call or the one
its single `readFromSource` or `unscheduledFill` call leaves, so when that call changes only
the holder's own members every other holder is as before. On any holder, a
history-disambiguating one included, whose candidates are resolved by reads and fills, every
holder outside a set that confines the reads and fills for the resolved holder and the holders
of the container is as before; the candidates themselves may change. -/
theorem resolve_changes_confined (principal : Principal) (skipCurrentProcess : Bool)
    (sra mcc : Option Nat) (w : World) :
    (∀ this r w1,
      PuttableProductHolder.resolveProduct_ this principal skipCurrentProcess sra mcc w
        = .ok (r, w1) → w1 = w)
    ∧ (∀ this r w1,
      InputProductHolder.resolveProduct_ this principal skipCurrentProcess sra mcc w
        = .ok (r, w1) →
      (w1 = w ∨ w1 = principal.readFromSource this.index mcc w)
      ∧ ((∀ j, j ≠ this.index →
            (principal.readFromSource_ this.index mcc w).holders j = w.holders j) →
          ∀ j, j ≠ this.index → w1.holders j = w.holders j))
    ∧ (∀ this r w1,
      UnscheduledProductHolder.resolveProduct_ this principal skipCurrentProcess sra mcc w
        = .ok (r, w1) →
      (w1 = w ∨ w1 = principal.unscheduledFill this.moduleLabel sra mcc w)
      ∧ ((∀ j, j ≠ this.index →
            (principal.unscheduledFill_ this.moduleLabel sra mcc w).holders j = w.holders j) →
          ∀ j, j ≠ this.index → w1.holders j = w.holders j))
    ∧ (∀ (touched : ProductHolderIndex → Prop) (fuel : Nat) (top : ProductHolder) r w1,
      principal.Confined top touched →
      resolveProduct principal skipCurrentProcess sra mcc fuel top w = .ok (r, w1) →
      ∀ j, ¬ touched j → w1.holders j = w.holders j) := by
  refine ⟨?_, ?_, ?_, ?_⟩
  · intro this r w1 h
    exact PuttableProductHolder.puttable_resolve_world this principal _ _ _ w w1 r h
  · intro this r w1 h
    have hw := InputProductHolder.input_resolve_world this principal _ _ _ w w1 r h
    refine ⟨hw, ?_⟩
    intro hj j hne
    rcases hw with rfl | rfl
    · rfl
    · exact hj j hne
  · intro this r w1 h
    have hw := UnscheduledProductHolder.unscheduled_resolve_world this principal _ _ _ w w1 r h
    refine ⟨hw, ?_⟩
    intro hj j hne
    rcases hw with rfl | rfl
    · rfl
    · exact hj j hne
  · intro touched fuel top r w1 hconf h j hj
    exact resolveProduct_frame principal skipCurrentProcess sra mcc j fuel top
      (fun d hd mcc w => hconf.1 d hd mcc w j hj)
      (fun d hd sra mcc w => hconf.2 d hd sra mcc w j hj) w w1 r h

theorem installing_confined (p : WrapperBase) (order : List Nat) (top : NoProcessProductHolder) :
    (Principal.installing p order).Confined (ProductHolder.noProcess top)
      (fun j => j = 0 ∨ j = 1) := by
  constructor
  · intro h hh mcc w j hj
    rcases hh with hh | hh
    · cases hh
    · simp only [Principal.installing, List.mem_cons, ProductHolder.input.injEq, reduceCtorEq,
        List.mem_singleton, or_false, List.not_mem_nil] at hh
      subst hh
      have : j ≠ 0 := fun e => hj (Or.inl e)
      simp [Principal.installing, World.install, holderIn, Function.update, this]
  · intro h _ sra mcc w j hj
    have : j ≠ 1 := fun e => hj (Or.inr e)
    simp [Principal.installing, World.install, holderB, Function.update, this]

/-- C19 (witness): the resolve call of the counterexample changes the candidate holder 0 and
leaves the holder with index 5, which no read or fill of this collaborator changes, as it
was. -/
theorem resolve_changes_confined_witness :
    (worldAfter World.initial (resolveProduct (Principal.installing payloadA [1, 0]) false none
      none 1 (ProductHolder.noProcess noProcessA) World.initial)).holders 5
      = World.initial.holders 5 :=
  (resolve_changes_confined (Principal.installing payloadA [1, 0]) false none none
    World.initial).2.2.2 (fun j => j = 0 ∨ j = 1) 1 (ProductHolder.noProcess noProcessA)
    ⟨ResolveStatus.ProductFound, some 0⟩
    (worldAfter World.initial (resolveProduct (Principal.installing payloadA [1, 0]) false none
      none 1 (ProductHolder.noProcess noProcessA) World.initial))
    (installing_confined payloadA [1, 0] noProcessA) rfl 5 (by decide)

/-! ## C22: a rejected put changes nothing -/

theorem ProducedProductHolder.putProduct_leaving_agrees (this : DataManagingProductHolder)
    (edp : Option WrapperBase) (w : World) :
    ProducedProductHolder.putProduct_ this edp w
      = match ProducedProductHolder.putProduct_leaving this edp w with
        | (w1, .ok _) => .ok w1
        | (_, .error e) => .error e := by
  unfold ProducedProductHolder.putProduct_ ProducedProductHolder.putProduct_leaving
  split_ifs <;> rfl

/-- C22: when a put on a produced holder fails with InsertFailure, a payload was already held,
control leaves the put in the world it was given, so the record and the status of the holder
are exactly as before: the payload held is the one held before and the rejected value is not
stored. A put fails with InsertFailure exactly when a payload is held. -/
theorem ProducedProductHolder.rejected_put_atomic (this : DataManagingProductHolder)
    (edp : Option WrapperBase) (w : World)
    (h : ProducedProductHolder.putProduct_ this edp w = .error Fault.InsertFailure) :
    ProducedProductHolder.putProduct_leaving this edp w = (w, .error Fault.InsertFailure)
    ∧ (∃ p, this.product w = some p)
    ∧ this.getProductData (ProducedProductHolder.putProduct_leaving this edp w).1
        = this.getProductData w
    ∧ this.status (ProducedProductHolder.putProduct_leaving this edp w).1 = this.status w
    ∧ (∀ value, ProducedProductHolder.putProduct_ this value w = .error Fault.InsertFailure
        ↔ (this.product w).isSome = true) := by
  have key : ∀ value, ProducedProductHolder.putProduct_ this value w
      = .error Fault.InsertFailure ↔ (this.product w).isSome = true := by
    intro value
    unfold ProducedProductHolder.putProduct_
    constructor
    · intro hv
      cases hq : (this.product w).isSome with
      | true => rfl
      | false =>
        simp only [hq, Bool.false_eq_true, if_false] at hv
        split_ifs at hv <;> cases hv
    · intro hv
      simp [hv]
  have hp : (this.product w).isSome = true := (key edp).1 h
  have hl : ProducedProductHolder.putProduct_leaving this edp w
      = (w, .error Fault.InsertFailure) := by
    simp [ProducedProductHolder.putProduct_leaving, hp]
  refine ⟨hl, ?_, ?_, ?_, key⟩
  · cases hq : this.product w with
    | none => simp [hq] at hp
    | some p => exact ⟨p, rfl⟩
  · rw [hl]
  · rw [hl]

/-- C22 (witness): a second put on a holder that holds a payload fails with InsertFailure and
leaves the world of the first put. -/
theorem ProducedProductHolder.rejected_put_atomic_witness :
    ProducedProductHolder.putProduct_ holderA (some payloadB)
        (holderA.setProduct (some payloadA) World.initial) = .error Fault.InsertFailure
    ∧ ProducedProductHolder.putProduct_leaving holderA (some payloadB)
        (holderA.setProduct (some payloadA) World.initial)
      = (holderA.setProduct (some payloadA) World.initial, .error Fault.InsertFailure) :=
  ⟨rfl, (ProducedProductHolder.rejected_put_atomic holderA (some payloadB)
    (holderA.setProduct (some payloadA) World.initial) rfl).1⟩

/-! ## C23: a placeholder stays until the record is replaced or cleared -/

theorem InputProductHolder.resolve_of_placeholder (this : DataManagingProductHolder)
    (principal : Principal) (skip : Bool) (sra mcc : Option Nat) (w : World)
    (hp : this.holdsPlaceholder w) (hs : this.status w ≠ ProductStatus.ProductDeleted) :
    InputProductHolder.resolveProduct_ this principal skip sra mcc w
      = .ok (⟨ResolveStatus.ProductNotFound, none⟩, w) := by
  have hd : this.productWasDeleted w = false := by
    cases h : this.productWasDeleted w
    · rfl
    · exact absurd ((productWasDeleted_iff _ _).1 h) hs
  have hu : InputProductHolder.productUnavailable this w = true :=
    (productUnavailable_iff _ _).2 hp
  simp [InputProductHolder.resolveProduct_, hd, hu]

theorem InputProductHolder.resolveAll_of_placeholder (this : DataManagingProductHolder)
    (principal : Principal) (calls : List (Bool × Option Nat × Option Nat)) (w : World)
    (hp : this.holdsPlaceholder w) :
    InputProductHolder.resolveAll this principal calls w = w := by
  have hu : InputProductHolder.productUnavailable this w = true :=
    (productUnavailable_iff _ _).2 hp
  induction calls with
  | nil => rfl
  | cons c rest ih =>
    obtain ⟨skip, sra, mcc⟩ := c
    unfold InputProductHolder.resolveAll
    rw [InputProductHolder.worldAfter_resolve_input]
    simp [hu, ih]

theorem InputProductHolder.resolve_reads_without_placeholder (this : DataManagingProductHolder)
    (principal : Principal) (skip : Bool) (sra mcc : Option Nat) (w : World)
    (hp : ¬ this.holdsPlaceholder w) (hs : this.status w ≠ ProductStatus.ProductDeleted) :
    worldAfter w (InputProductHolder.resolveProduct_ this principal skip sra mcc w)
      = principal.readFromSource this.index mcc w := by
  have hd : this.productWasDeleted w = false := by
    cases h : this.productWasDeleted w
    · rfl
    · exact absurd ((productWasDeleted_iff _ _).1 h) hs
  have hu : InputProductHolder.productUnavailable this w = false := by
    cases h : InputProductHolder.productUnavailable this w
    · rfl
    · exact absurd ((productUnavailable_iff _ _).1 h) hp
  rw [InputProductHolder.worldAfter_resolve_input]
  simp [hd, hu]

/-- C23: once an input-backed holder holds a placeholder and its status is not Deleted, every
resolve call, after any number of earlier resolve calls and with any flag, token and context,
returns NotFound with no record and leaves the world as it is: no `readFromSource` call is
made and the holder is unchanged. This ends when the record is replaced or cleared: after a
put of a present payload, and after a reset, the holder holds no placeholder and the next
resolve calls `readFromSource` again. -/
theorem InputProductHolder.placeholder_sticky (this : DataManagingProductHolder)
    (principal : Principal) (w : World) (hp : this.holdsPlaceholder w)
    (hs : this.status w ≠ ProductStatus.ProductDeleted) :
    (∀ (earlier : List (Bool × Option Nat × Option Nat)) (skip : Bool) (sra mcc : Option Nat),
      InputProductHolder.resolveAll this principal earlier w = w
      ∧ InputProductHolder.resolveProduct_ this principal skip sra mcc
          (InputProductHolder.resolveAll this principal earlier w)
        = .ok (⟨ResolveStatus.ProductNotFound, none⟩, w))
    ∧ (∀ (value : WrapperBase) (skip : Bool) (sra mcc : Option Nat), value.isPresent = true →
      InputProductHolder.putProduct_ this (some value) w = .ok (this.setProduct (some value) w)
      ∧ ¬ this.holdsPlaceholder (this.setProduct (some value) w)
      ∧ worldAfter (this.setProduct (some value) w)
          (InputProductHolder.resolveProduct_ this principal skip sra mcc
            (this.setProduct (some value) w))
        = principal.readFromSource this.index mcc (this.setProduct (some value) w))
    ∧ (∀ (skip : Bool) (sra mcc : Option Nat),
      ¬ this.holdsPlaceholder (this.resetProductData_ w)
      ∧ worldAfter (this.resetProductData_ w)
          (InputProductHolder.resolveProduct_ this principal skip sra mcc
            (this.resetProductData_ w))
        = principal.readFromSource this.index mcc (this.resetProductData_ w)) := by
  refine ⟨?_, ?_, ?_⟩
  · intro earlier skip sra mcc
    have hall := InputProductHolder.resolveAll_of_placeholder this principal earlier w hp
    refine ⟨hall, ?_⟩
    rw [hall]
    exact InputProductHolder.resolve_of_placeholder this principal skip sra mcc w hp hs
  · intro value skip sra mcc hv
    have hn : ¬ this.holdsPlaceholder (this.setProduct (some value) w) := by
      rintro ⟨p, h1, h2⟩
      rw [product_setProduct] at h1
      cases h1
      rw [hv] at h2
      cases h2
    refine ⟨rfl, hn, ?_⟩
    apply InputProductHolder.resolve_reads_without_placeholder _ _ _ _ _ _ hn
    rw [status_setProduct]
    simp
  · intro skip sra mcc
    have hd : this.data (this.resetProductData_ w) = fresh := by
      rw [← setData_data this w, resetProductData_setData, data_setData]
    have hn : ¬ this.holdsPlaceholder (this.resetProductData_ w) := by
      rintro ⟨p, h1, -⟩
      simp [product, DataManagingProductHolder.getProductData, hd, fresh] at h1
    refine ⟨hn, ?_⟩
    apply InputProductHolder.resolve_reads_without_placeholder _ _ _ _ _ _ hn
    simp [status, hd, fresh]

/-- C23 (witness): an input-backed holder on which a placeholder was put; after two resolve
calls a third one returns NotFound and the world is the one in which the placeholder was
put, without any recorded call. -/
theorem InputProductHolder.placeholder_sticky_witness :
    InputProductHolder.resolveProduct_ holderIn (Principal.installing payloadA []) false none
        none
        (InputProductHolder.resolveAll holderIn (Principal.installing payloadA [])
          [(false, none, none), (true, none, none)]
          (holderIn.setProduct (some placeholderA) World.initial))
      = .ok (⟨ResolveStatus.ProductNotFound, none⟩,
          holderIn.setProduct (some placeholderA) World.initial)
    ∧ (holderIn.setProduct (some placeholderA) World.initial).calls = [] :=
  ⟨((InputProductHolder.placeholder_sticky holderIn (Principal.installing payloadA [])
      (holderIn.setProduct (some placeholderA) World.initial) ⟨placeholderA, rfl, rfl⟩
      (by decide)).1 [(false, none, none), (true, none, none)] false none none).2, rfl⟩

/-! ## C24: a failing candidate ends the history search -/

/-- C24: if the lookup order is `pre ++ k :: post` where the search passes over the positions
`pre` (non-zero positions of the tables, not ambiguous, candidate invalid or resolving
NotFound) and the valid candidate of the non-ambiguous position `k` fails with ProductDeleted,
then the whole resolve fails with ProductDeleted, whatever `post` holds, be it a candidate
that would resolve Found or an ambiguous position; this for the candidates as `resolveProduct`
resolves them and for every other behaviour of the candidates. And when the candidate of
position `k` returns no record, whatever status it reports, the search goes on: its result is
the result of the search over the positions after `k`, started in the world the candidate
left, in which the reported status does not occur. -/
theorem NoProcessProductHolder.resolve_propagates_failure (this : NoProcessProductHolder)
    (principal : Principal) (pre : List Nat) (k : Nat) (post : List Nat)
    (i : ProductHolderIndex) (horder : principal.lookupProcessOrder = pre ++ k :: post)
    (hk : k ≠ 0) (ha : this.ambiguous_[k]? = some false)
    (hm : this.matchingHolders_[k]? = some i) (hi : i ≠ ProductHolderIndexInvalid) :
    (∀ (skipCurrentProcess : Bool) (sra mcc : Option Nat) (fuel : Nat) (w w1 : World),
      Passes this (resolveCandidate principal skipCurrentProcess sra mcc fuel) pre w w1 →
      resolveCandidate principal skipCurrentProcess sra mcc fuel i w1
        = .error Fault.ProductDeleted →
      resolveProduct principal skipCurrentProcess sra mcc (fuel + 1)
        (ProductHolder.noProcess this) w = .error Fault.ProductDeleted)
    ∧ (∀ (cand : ProductHolderIndex → World → Except Fault (Resolved × World)) (w w1 : World),
      Passes this cand pre w w1 → cand i w1 = .error Fault.ProductDeleted →
      NoProcessProductHolder.resolveProduct_ this principal cand w
        = .error Fault.ProductDeleted)
    ∧ (∀ (cand : ProductHolderIndex → World → Except Fault (Resolved × World))
        (status : ResolveStatus) (rest : List Nat) (w w0 : World),
      cand i w = .ok (⟨status, none⟩, w0) →
      resolveLoop this cand (k :: rest) w = resolveLoop this cand rest w0) := by
  have key : ∀ (cand : ProductHolderIndex → World → Except Fault (Resolved × World))
      (w w1 : World), Passes this cand pre w w1 → cand i w1 = .error Fault.ProductDeleted →
      NoProcessProductHolder.resolveProduct_ this principal cand w
        = .error Fault.ProductDeleted := by
    intro cand w w1 hp hc
    unfold NoProcessProductHolder.resolveProduct_
    rw [horder, resolveLoop_passes this cand pre w w1 hp,
      resolveLoop_candidate this cand k i post w1 hk ha hm hi, hc]
  refine ⟨?_, key, ?_⟩
  · intro skip sra mcc fuel w w1 hp hc
    rw [resolveProduct_noProcess]
    exact key _ w w1 hp hc
  · intro cand status rest w w0 hc
    rw [resolveLoop_candidate this cand k i rest w hk ha hm hi, hc]

/-- C24 (witness): order [1, 2, 0]; the candidate of position 1 was marked deleted, the
candidate of position 2 holds a present payload and would resolve Found: the resolve fails
with ProductDeleted. -/
theorem NoProcessProductHolder.resolve_propagates_failure_witness :
    outcome (resolveCandidate (Principal.ofOrder [1, 2, 0]) false none none 0 1
        (holderB.setProduct (some payloadA) (holderA.setProductDeleted_ World.initial)))
      = .ok ⟨ResolveStatus.ProductFound, some 1⟩
    ∧ resolveProduct (Principal.ofOrder [1, 2, 0]) false none none 1
        (ProductHolder.noProcess noProcessC)
        (holderB.setProduct (some payloadA) (holderA.setProductDeleted_ World.initial))
      = .error Fault.ProductDeleted :=
  ⟨rfl, (NoProcessProductHolder.resolve_propagates_failure noProcessC
    (Principal.ofOrder [1, 2, 0]) [] 1 [2, 0] 0 rfl (by decide) rfl rfl (by decide)).1
    false none none 0 _ _ (Passes.nil _) rfl⟩

/-! ## C21: the reads of the tables stay in range -/

theorem resolveLoop_error_origin (this : NoProcessProductHolder)
    (cand : ProductHolderIndex → World → Except Fault (Resolved × World))
    (hlen : this.matchingHolders_.length = this.ambiguous_.length) (order : List Nat)
    (hb : ∀ k ∈ order.takeWhile (fun k => decide (k ≠ 0)), k < this.ambiguous_.length)
    (h0 : 0 ∈ order → 0 < this.ambiguous_.length) (w : World) (e : Fault)
    (h : resolveLoop this cand order w = .error e) :
    ∃ i w0, i ≠ ProductHolderIndexInvalid ∧ cand i w0 = .error e := by
  induction order generalizing w with
  | nil => simp [resolveLoop] at h
  | cons k rest ih =>
    by_cases hk : k = 0
    · subst hk
      rw [resolveLoop_zero this cand rest w (h0 (List.mem_cons_self _ _))] at h
      cases h
    · have hmem : k ∈ (k :: rest).takeWhile (fun k => decide (k ≠ 0)) := by
        simp [List.takeWhile_cons, hk]
      have hlt : k < this.ambiguous_.length := hb k hmem
      have hrest : ∀ j ∈ rest.takeWhile (fun k => decide (k ≠ 0)),
          j < this.ambiguous_.length := by
        intro j hj
        apply hb
        simp only [List.takeWhile_cons, hk, ne_eq, not_false_eq_true, decide_True, if_true]
        exact List.mem_cons_of_mem _ hj
      have h0rest : 0 ∈ rest → 0 < this.ambiguous_.length :=
        fun hz => h0 (List.mem_cons_of_mem _ hz)
      have hlt2 : k < this.matchingHolders_.length := by
        rw [hlen]
        exact hlt
      have ha : this.ambiguous_[k]? = some (this.ambiguous_[k]) :=
        List.getElem?_eq_getElem hlt
      have hm : this.matchingHolders_[k]? = some (this.matchingHolders_[k]) :=
        List.getElem?_eq_getElem hlt2
      cases hamb : this.ambiguous_[k] with
      | true =>
        rw [hamb] at ha
        rw [resolveLoop_ambiguous this cand k rest w hk ha] at h
        cases h
      | false =>
        rw [hamb] at ha
        by_cases hi : this.matchingHolders_[k] = ProductHolderIndexInvalid
        · rw [hi] at hm
          rw [resolveLoop_invalid this cand k rest w hk ha hm] at h
          exact ih hrest h0rest w h
        · rw [resolveLoop_candidate this cand k _ rest w hk ha hm hi] at h
          cases hcand : cand (this.matchingHolders_[k]) w with
          | error e1 =>
            simp only [hcand, Except.error.injEq] at h
            subst h
            exact ⟨_, w, hi, hcand⟩
          | ok p =>
            obtain ⟨r0, w0⟩ := p
            cases hpd : r0.pd with
            | none =>
              simp only [hcand, hpd] at h
              exact ih hrest h0rest w0 h
            | some j =>
              simp [hcand, hpd] at h

theorem resolveLoop_after_sentinel (this : NoProcessProductHolder)
    (cand : ProductHolderIndex → World → Except Fault (Resolved × World))
    (pre post other : List Nat) (w : World) :
    resolveLoop this cand (pre ++ 0 :: post) w = resolveLoop this cand (pre ++ 0 :: other) w := by
  induction pre generalizing w with
  | nil => simp [resolveLoop]
  | cons k rest ih =>
    rw [List.cons_append, List.cons_append, resolveLoop, resolveLoop]
    simp only [ih]

theorem resolveProduct_dataManaging_error (principal : Principal) (skipCurrentProcess : Bool)
    (sra mcc : Option Nat) (fuel : Nat) (c : ProductHolder)
    (hc : ∀ n, c ≠ ProductHolder.noProcess n) (w : World) (e : Fault)
    (h : resolveProduct principal skipCurrentProcess sra mcc fuel c w = .error e) :
    e = Fault.ProductDeleted := by
  cases c with
  | noProcess n => exact absurd rfl (hc n)
  | input d =>
    have e1 : resolveProduct principal skipCurrentProcess sra mcc fuel (ProductHolder.input d) w
        = InputProductHolder.resolveProduct_ d principal skipCurrentProcess sra mcc w := by
      cases fuel <;> rfl
    rw [e1] at h
    unfold InputProductHolder.resolveProduct_ at h
    dsimp only at h
    split_ifs at h
    simp only [Except.error.injEq, reduceCtorEq] at h
    exact h.symm
  | puttable d =>
    have e1 : resolveProduct principal skipCurrentProcess sra mcc fuel
        (ProductHolder.puttable d) w
        = PuttableProductHolder.resolveProduct_ d principal skipCurrentProcess sra mcc w := by
      cases fuel <;> rfl
    rw [e1] at h
    unfold PuttableProductHolder.resolveProduct_ at h
    split_ifs at h
    simp only [Except.error.injEq, reduceCtorEq] at h
    exact h.symm
  | unscheduled d =>
    have e1 : resolveProduct principal skipCurrentProcess sra mcc fuel
        (ProductHolder.unscheduled d) w
        = UnscheduledProductHolder.resolveProduct_ d principal skipCurrentProcess sra mcc
          w := by
      cases fuel <;> rfl
    rw [e1] at h
    unfold UnscheduledProductHolder.resolveProduct_ at h
    dsimp only at h
    split_ifs at h
    simp only [Except.error.injEq, reduceCtorEq] at h
    exact h.symm

/-- C21: if the two tables have the same length `n` and every entry of the lookup order up to
and including the first 0 is less than `n`, then every failure of resolve is the failure of a
valid candidate it resolved: the loop itself fails no assertion and reads neither table out of
range. So with candidates that are data-owning holders of the container resolve fails neither
with a failed assertion nor with a read out of range. The entries after the first 0 are not
looked at: replacing them by any others, in range or not, gives the same result. -/
theorem NoProcessProductHolder.resolve_index_safe (this : NoProcessProductHolder)
    (principal : Principal) (n : Nat) (hamb : this.ambiguous_.length = n)
    (hmh : this.matchingHolders_.length = n)
    (hb : ∀ k ∈ principal.lookupProcessOrder.takeWhile (fun k => decide (k ≠ 0)), k < n)
    (h0 : 0 ∈ principal.lookupProcessOrder → 0 < n) :
    (∀ (cand : ProductHolderIndex → World → Except Fault (Resolved × World)) (w : World)
        (e : Fault),
      NoProcessProductHolder.resolveProduct_ this principal cand w = .error e →
      ∃ i w0, i ≠ ProductHolderIndexInvalid ∧ cand i w0 = .error e)
    ∧ (∀ (skipCurrentProcess : Bool) (sra mcc : Option Nat) (fuel : Nat) (w : World),
      (∀ i c, principal.getProductHolderByIndex i = some c →
        ∀ m, c ≠ ProductHolder.noProcess m) →
      resolveProduct principal skipCurrentProcess sra mcc (fuel + 1)
          (ProductHolder.noProcess this) w ≠ .error Fault.AssertionFailed
      ∧ resolveProduct principal skipCurrentProcess sra mcc (fuel + 1)
          (ProductHolder.noProcess this) w ≠ .error Fault.OutOfRange)
    ∧ (∀ (cand : ProductHolderIndex → World → Except Fault (Resolved × World))
        (pre post other : List Nat) (w : World),
      resolveLoop this cand (pre ++ 0 :: post) w
        = resolveLoop this cand (pre ++ 0 :: other) w) := by
  subst hamb
  have origin : ∀ (cand : ProductHolderIndex → World → Except Fault (Resolved × World))
      (w : World) (e : Fault),
      NoProcessProductHolder.resolveProduct_ this principal cand w = .error e →
      ∃ i w0, i ≠ ProductHolderIndexInvalid ∧ cand i w0 = .error e :=
    fun cand w e h => resolveLoop_error_origin this cand hmh _ hb h0 w e h
  refine ⟨origin, ?_, fun cand pre post other w =>
    resolveLoop_after_sentinel this cand pre post other w⟩
  intro skip sra mcc fuel w hdm
  have hcand : ∀ e, resolveProduct principal skip sra mcc (fuel + 1)
      (ProductHolder.noProcess this) w = .error e →
      e = Fault.ProductDeleted ∨ e = Fault.NullDereference := by
    intro e he
    rw [resolveProduct_noProcess] at he
    obtain ⟨i, w0, -, hi⟩ := origin _ w e he
    unfold resolveCandidate at hi
    cases hg : principal.getProductHolderByIndex i with
    | none =>
      simp only [hg, Except.error.injEq] at hi
      exact Or.inr hi.symm
    | some c =>
      simp only [hg] at hi
      exact Or.inl (resolveProduct_dataManaging_error _ _ _ _ _ c (hdm i c hg) w0 e hi)
  constructor
  · intro he
    rcases hcand _ he with h | h <;> cases h
  · intro he
    rcases hcand _ he with h | h <;> cases h

/-- C21 (witness): tables of length 4 and the order [1, 2, 0, 9], whose entry after the first
0 is out of range: the resolve fails no assertion. -/
theorem NoProcessProductHolder.resolve_index_safe_witness :
    resolveProduct (Principal.ofOrder [1, 2, 0, 9]) false none none 1
      (ProductHolder.noProcess noProcessC) World.initial ≠ .error Fault.AssertionFailed :=
  ((NoProcessProductHolder.resolve_index_safe noProcessC (Principal.ofOrder [1, 2, 0, 9]) 4
    rfl rfl (by decide) (fun _ => by decide)).2.1 false none none 0 World.initial
    (fun i c hg m hm => by
      have hmem : c ∈ (Principal.ofOrder [1, 2, 0, 9]).productHolders_ := List.getElem?_mem hg
      subst hm
      simp [Principal.ofOrder] at hmem)).1

/-! ## C1: resolve after mark_deleted, with no put and no reset in between -/

theorem Variant.apply_status_deleted (mergeProduct : WrapperBase → WrapperBase → WrapperBase)
    (v : Variant) (this : DataManagingProductHolder) (op : Operation) (w w1 : World)
    (hop : Event.isPut (Event.operation op) = false)
    (hs : this.status w = ProductStatus.ProductDeleted)
    (h : v.apply mergeProduct this op w = .ok w1) :
    this.status w1 = ProductStatus.ProductDeleted := by
  cases op with
  | put edp => simp [Event.isPut] at hop
  | merge edp =>
    have hm : mergeTheProduct mergeProduct this edp w = .ok w1 := by
      cases v
      · exact h
      · simp only [Variant.apply, ProducedProductHolder.apply,
          ProducedProductHolder.mergeProduct_] at h
        split at h
        · cases h
        · exact h
      · simp only [Variant.apply, ProducedProductHolder.apply,
          ProducedProductHolder.mergeProduct_] at h
        split at h
        · cases h
        · exact h
    rw [(mergeTheProduct_status mergeProduct this edp w w1 hm).1, hs]
  | markDeleted =>
    have hw : w1 = this.setProductDeleted_ w := by
      cases v <;>
        simp only [Variant.apply, InputProductHolder.apply, ProducedProductHolder.apply,
          Except.ok.injEq] at h <;>
        exact h.symm
    rw [hw]
    exact status_setProductDeleted_ this w

theorem Variant.worldAfter_resolve_deleted (v : Variant) (this : DataManagingProductHolder)
    (principal : Principal) (skip : Bool) (sra mcc : Option Nat) (w : World)
    (hs : this.status w = ProductStatus.ProductDeleted) :
    worldAfter w (v.resolveProduct_ this principal skip sra mcc w) = w := by
  have hd : this.productWasDeleted w = true := (productWasDeleted_iff _ _).2 hs
  cases v with
  | input =>
    simp only [Variant.resolveProduct_]
    rw [InputProductHolder.worldAfter_resolve_input]
    simp [hd]
  | puttable =>
    cases skip <;>
      simp [Variant.resolveProduct_, PuttableProductHolder.resolveProduct_, hd, worldAfter]
  | unscheduled =>
    simp only [Variant.resolveProduct_]
    rw [UnscheduledProductHolder.worldAfter_resolve]
    simp [hd]

theorem runEvents_status_deleted (mergeProduct : WrapperBase → WrapperBase → WrapperBase)
    (principal : Principal) (v : Variant) (this : DataManagingProductHolder)
    (events : List Event) (hnoput : ∀ e ∈ events, e.isPut = false) (w : World)
    (hs : this.status w = ProductStatus.ProductDeleted) :
    this.status (runEvents mergeProduct principal v this events w)
      = ProductStatus.ProductDeleted := by
  induction events generalizing w with
  | nil => exact hs
  | cons e rest ih =>
    have hrest : ∀ e ∈ rest, e.isPut = false :=
      fun e he => hnoput e (List.mem_cons_of_mem _ he)
    cases e with
    | operation op =>
      have hop := hnoput (Event.operation op) (List.mem_cons_self _ _)
      unfold runEvents
      cases h : v.apply mergeProduct this op w with
      | error f => exact ih hrest w hs
      | ok w1 =>
        exact ih hrest w1 (Variant.apply_status_deleted mergeProduct v this op w w1 hop hs h)
    | resolve skip sra mcc =>
      unfold runEvents
      rw [Variant.worldAfter_resolve_deleted v this principal skip sra mcc w hs]
      exact ih hrest w hs

/-- C1 (amended): after `mark_deleted` and any merges, further `mark_deleted` and resolve calls
in between, but no put and no reset, the status is still Deleted and resolve fails with
ProductDeleted on the input-backed variant for both values of `skipCurrentProcess`, and on the
explicitly-put and on-demand variants when `skipCurrentProcess` is false; with
`skipCurrentProcess` true the explicitly-put and on-demand variants return NotFound with no
record and leave the world as it is. -/
theorem resolve_after_setProductDeleted
    (mergeProduct : WrapperBase → WrapperBase → WrapperBase) (this : DataManagingProductHolder)
    (principal : Principal) (between : List Event)
    (hnoput : ∀ e ∈ between, e.isPut = false) (skipCurrentProcess : Bool)
    (sra mcc : Option Nat) (w : World) :
    (∀ v, this.status (runEvents mergeProduct principal v this between
        (this.setProductDeleted_ w)) = ProductStatus.ProductDeleted)
    ∧ InputProductHolder.resolveProduct_ this principal skipCurrentProcess sra mcc
        (runEvents mergeProduct principal Variant.input this between
          (this.setProductDeleted_ w)) = .error Fault.ProductDeleted
    ∧ PuttableProductHolder.resolveProduct_ this principal false sra mcc
        (runEvents mergeProduct principal Variant.puttable this between
          (this.setProductDeleted_ w)) = .error Fault.ProductDeleted
    ∧ UnscheduledProductHolder.resolveProduct_ this principal false sra mcc
        (runEvents mergeProduct principal Variant.unscheduled this between
          (this.setProductDeleted_ w)) = .error Fault.ProductDeleted
    ∧ PuttableProductHolder.resolveProduct_ this principal true sra mcc
        (runEvents mergeProduct principal Variant.puttable this between
          (this.setProductDeleted_ w))
        = .ok (⟨ResolveStatus.ProductNotFound, none⟩,
            runEvents mergeProduct principal Variant.puttable this between
              (this.setProductDeleted_ w))
    ∧ UnscheduledProductHolder.resolveProduct_ this principal true sra mcc
        (runEvents mergeProduct principal Variant.unscheduled this between
          (this.setProductDeleted_ w))
        = .ok (⟨ResolveStatus.ProductNotFound, none⟩,
            runEvents mergeProduct principal Variant.unscheduled this between
              (this.setProductDeleted_ w)) := by
  have hs : ∀ v, this.status (runEvents mergeProduct principal v this between
      (this.setProductDeleted_ w)) = ProductStatus.ProductDeleted :=
    fun v => runEvents_status_deleted mergeProduct principal v this between hnoput _
      (status_setProductDeleted_ this w)
  have hd : ∀ v, this.productWasDeleted (runEvents mergeProduct principal v this between
      (this.setProductDeleted_ w)) = true :=
    fun v => (productWasDeleted_iff _ _).2 (hs v)
  refine ⟨hs, ?_, ?_, ?_, ?_, ?_⟩
  · simp [InputProductHolder.resolveProduct_, hd Variant.input]
  · simp [PuttableProductHolder.resolveProduct_, hd Variant.puttable]
  · simp [UnscheduledProductHolder.resolveProduct_, hd Variant.unscheduled]
  · simp [PuttableProductHolder.resolveProduct_]
  · simp [UnscheduledProductHolder.resolveProduct_]

/-- C1 (witness): an input-backed holder is put, marked deleted, then merged into, resolved and
marked deleted again; the next resolve fails with ProductDeleted. -/
theorem resolve_after_setProductDeleted_witness :
    InputProductHolder.resolveProduct_ holderIn (Principal.installing payloadA []) false none
      none
      (runEvents addContents (Principal.installing payloadA []) Variant.input holderIn
        [Event.operation (Operation.merge (some payloadB)), Event.resolve true none none,
          Event.operation Operation.markDeleted]
        (holderIn.setProductDeleted_ (holderIn.setProduct (some payloadA) World.initial)))
      = .error Fault.ProductDeleted :=
  (resolve_after_setProductDeleted addContents holderIn (Principal.installing payloadA [])
    [Event.operation (Operation.merge (some payloadB)), Event.resolve true none none,
      Event.operation Operation.markDeleted]
    (by decide) false none none (holderIn.setProduct (some payloadA) World.initial)).2.1

/-! ## C20: merge and the status -/

/-- C20: on a data-owning holder of any variant whose status is not Present a merge is
rejected and folds nothing: on the produced variants (explicitly-put, on-demand) by the
assertion of `ProducedProductHolder::mergeProduct_`, on the input-backed variant, whose
`mergeProduct_` is `mergeTheProduct` alone, by the validity of that absent helper as the spec
words it. The world after the rejected merge is the world before it. -/
theorem merge_rejected_unless_present
    (mergeProduct : WrapperBase → WrapperBase → WrapperBase) (this : DataManagingProductHolder)
    (edp : Option WrapperBase) (w : World) (h : this.status w ≠ ProductStatus.Present) :
    ProducedProductHolder.mergeProduct_ mergeProduct this edp w = .error Fault.AssertionFailed
    ∧ InputProductHolder.mergeProduct_ mergeProduct this edp w = .error Fault.AssertionFailed
    ∧ (∀ v : Variant,
        v.apply mergeProduct this (Operation.merge edp) w = .error Fault.AssertionFailed)
    ∧ (∀ (v : Variant) (principal : Principal), runEvents mergeProduct principal v this
        [Event.operation (Operation.merge edp)] w = w) := by
  have hp : ProducedProductHolder.mergeProduct_ mergeProduct this edp w
      = .error Fault.AssertionFailed := by
    simp [ProducedProductHolder.mergeProduct_, h]
  have hi : InputProductHolder.mergeProduct_ mergeProduct this edp w
      = .error Fault.AssertionFailed := by
    simp [InputProductHolder.mergeProduct_, mergeTheProduct, h]
  have hv : ∀ v : Variant, v.apply mergeProduct this (Operation.merge edp) w
      = .error Fault.AssertionFailed := by
    intro v
    cases v
    · exact hi
    · exact hp
    · exact hp
  refine ⟨hp, hi, hv, ?_⟩
  intro v principal
  simp [runEvents, hv v]

/-- C20 (witness): an input-backed holder that was put and then marked deleted rejects a merge;
the same holder before the deletion, with the status Present, folds the value into its
payload. -/
theorem merge_rejected_unless_present_witness :
    InputProductHolder.mergeProduct_ addContents holderIn (some payloadB)
        (holderIn.setProductDeleted_ (holderIn.setProduct (some payloadA) World.initial))
      = .error Fault.AssertionFailed
    ∧ Except.map holderIn.product (InputProductHolder.mergeProduct_ addContents holderIn
        (some payloadB) (holderIn.setProduct (some payloadA) World.initial))
      = .ok (some { isPresent := true, content := 16 }) :=
  ⟨(merge_rejected_unless_present addContents holderIn (some payloadB)
    (holderIn.setProductDeleted_ (holderIn.setProduct (some payloadA) World.initial))
    (by decide)).2.1, rfl⟩

end edm
